import Mathlib

/-!
Verification of the `frc-video-referee` VAR coordinator against its design
specification.  Each section embeds one component of the Python source as
executable Lean definitions (integers as `Int`/`Nat`, floating point values
as `ℚ`, fallible code in `Except`/`Option`) and proves or refutes the
specified properties about them.
-/

set_option maxHeartbeats 1000000

namespace FRCVideoReferee

/-! ### Decimal rendering of naturals

The match-id allocator renders a sequence number with a Python f-string,
i.e. decimal notation, which Lean's `Nat.repr` matches.  We prove `Nat.repr`
injective so the allocated ids `B`, `B_1`, `B_2`, … are pairwise distinct. -/

/-- Numeric value of a decimal digit character (inverse of `Nat.digitChar`
on digits `0`–`9`). -/
def digitVal (c : Char) : Nat := c.toNat - 48

/-- Value of a character list read as decimal digits, most significant first. -/
def digitsVal (cs : List Char) : Nat := cs.foldl (fun a c => a * 10 + digitVal c) 0

theorem digitsVal_cons (c : Char) (cs : List Char) :
    digitsVal (c :: cs) = digitsVal cs + digitVal c * 10 ^ cs.length := by
  have h : ∀ (l : List Char) (a : Nat),
      l.foldl (fun a c => a * 10 + digitVal c) a
        = l.foldl (fun a c => a * 10 + digitVal c) 0 + a * 10 ^ l.length := by
    intro l
    induction l with
    | nil => intro a; simp
    | cons d l ih =>
      intro a
      simp only [List.foldl_cons, List.length_cons]
      rw [ih (a * 10 + digitVal d), ih (0 * 10 + digitVal d)]
      ring
  simp only [digitsVal, List.foldl_cons]
  rw [h cs (0 * 10 + digitVal c)]
  ring

theorem digitVal_digitChar {m : Nat} (h : m < 10) : digitVal (Nat.digitChar m) = m := by
  interval_cases m <;> decide

theorem digitsVal_toDigitsCore (fuel n : Nat) (cs : List Char) (hfuel : n < fuel) :
    digitsVal (Nat.toDigitsCore 10 fuel n cs) = n * 10 ^ cs.length + digitsVal cs := by
  induction fuel generalizing n cs with
  | zero => omega
  | succ fuel ih =>
    rw [Nat.toDigitsCore]
    by_cases h0 : n / 10 = 0
    · rw [if_pos h0]
      rw [digitsVal_cons, digitVal_digitChar (Nat.mod_lt _ (by norm_num))]
      have : n % 10 = n := by omega
      rw [this]
      ring
    · rw [if_neg h0]
      have hlt : n / 10 < fuel := by
        have h10 : 10 ≤ n := by
          by_contra hc
          exact h0 (Nat.div_eq_of_lt (by omega))
        have := Nat.div_lt_self (show 0 < n by omega) (show 1 < 10 by norm_num)
        omega
      rw [ih (n / 10) (Nat.digitChar (n % 10) :: cs) hlt]
      rw [digitsVal_cons, digitVal_digitChar (Nat.mod_lt _ (by norm_num))]
      simp only [List.length_cons]
      have : n = 10 * (n / 10) + n % 10 := (Nat.div_add_mod n 10).symm
      calc n / 10 * 10 ^ (cs.length + 1) + (digitsVal cs + n % 10 * 10 ^ cs.length)
          = (10 * (n / 10) + n % 10) * 10 ^ cs.length + digitsVal cs := by ring
        _ = n * 10 ^ cs.length + digitsVal cs := by rw [← this]

theorem digitsVal_toDigits (n : Nat) : digitsVal (Nat.toDigits 10 n) = n := by
  have := digitsVal_toDigitsCore (n + 1) n [] (Nat.lt_succ_self n)
  simpa [Nat.toDigits, digitsVal] using this

theorem natRepr_injective : Function.Injective Nat.repr := by
  intro a b hab
  have ha := digitsVal_toDigits a
  have hb := digitsVal_toDigits b
  have : Nat.toDigits 10 a = Nat.toDigits 10 b := by
    have h := congrArg String.data hab
    simpa [Nat.repr, List.asString] using h
  rw [this, hb] at ha
  exact ha.symm

/-! ### Arena data model (`cheesy_arena/model.py`)

`MatchState` is the arena's match play-cycle state enum (`IntEnum`, values
0–8 in the source). -/

inductive MatchState where
  | PRE_MATCH
  | START_MATCH
  | WARMUP_PERIOD
  | AUTO_PERIOD
  | PAUSE_PERIOD
  | TELEOP_PERIOD
  | POST_MATCH
  | TIMEOUT_ACTIVE
  | POST_TIMEOUT
  deriving DecidableEq, Repr

/-- Observable effects of the arena client's `matchTime` handler:
the `MATCH_TIME_UPDATED` data notifier, the refresh of the historical
match-result cache (`_refresh_match_results`), and the lifecycle
notifiers driven by match-state transitions. -/
inductive ArenaAction where
  | MATCH_TIME_UPDATED
  | refreshScores
  | MATCH_STARTED
  | AUTO_PERIOD_ENDED
  | TELEOP_PERIOD_STARTED
  | MATCH_ENDED
  | MATCH_COMMITTED_OR_DISCARDED
  deriving DecidableEq, Repr

/-- Effects of `CheesyArenaClient._handle_match_time` on one inbound
`matchTime` message, given the previously stored match-state and the
new message's match-state, in emission order (controller.py has no
handler for `TELEOP_PERIOD_STARTED`, but the arena client still emits it). -/
def handleMatchTime (prev cur : MatchState) : List ArenaAction :=
  .MATCH_TIME_UPDATED ::
    (if prev ≠ cur then
      match cur with
      | .AUTO_PERIOD => [.MATCH_STARTED]
      | .PAUSE_PERIOD => [.AUTO_PERIOD_ENDED]
      | .TELEOP_PERIOD => [.TELEOP_PERIOD_STARTED]
      | .POST_MATCH => [.MATCH_ENDED]
      | .PRE_MATCH =>
        if prev = .POST_MATCH then [.refreshScores, .MATCH_COMMITTED_OR_DISCARDED]
        else []
      | _ => []
    else [])

/-- Consecutive (previous, current) match-state pairs seen by the handler
across a sequence of inbound messages. -/
def transitionsFrom (init : MatchState) : List MatchState → List (MatchState × MatchState)
  | [] => []
  | m :: ms => (init, m) :: transitionsFrom m ms

/-- Effects of feeding a whole sequence of inbound `matchTime` messages to the
arena client, starting from stored match-state `init` (the stored state after
each message is that message's match-state). -/
def processMatchTimeSeq (init : MatchState) : List MatchState → List ArenaAction
  | [] => []
  | m :: ms => handleMatchTime init m ++ processMatchTimeSeq m ms

/-- `true` for the lifecycle notifiers and the score refresh, `false` for the
`MATCH_TIME_UPDATED` data notifier. -/
def isLifecycleAction : ArenaAction → Bool
  | .MATCH_TIME_UPDATED => false
  | _ => true

/-- The transition table of spec §4.2, written from the spec's words:
any change into AUTO_PERIOD emits MATCH_STARTED, into PAUSE_PERIOD emits
AUTO_PERIOD_ENDED, into TELEOP_PERIOD emits TELEOP_PERIOD_STARTED, into
POST_MATCH emits MATCH_ENDED; a POST_MATCH→PRE_MATCH change refreshes
scores and then emits MATCH_COMMITTED_OR_DISCARDED; nothing otherwise. -/
def lifecycleTable (prev cur : MatchState) : List ArenaAction :=
  if prev = cur then []
  else if cur = .AUTO_PERIOD then [.MATCH_STARTED]
  else if cur = .PAUSE_PERIOD then [.AUTO_PERIOD_ENDED]
  else if cur = .TELEOP_PERIOD then [.TELEOP_PERIOD_STARTED]
  else if cur = .POST_MATCH then [.MATCH_ENDED]
  else if prev = .POST_MATCH ∧ cur = .PRE_MATCH then
    [.refreshScores, .MATCH_COMMITTED_OR_DISCARDED]
  else []

theorem handleMatchTime_lifecycle (prev cur : MatchState) :
    (handleMatchTime prev cur).filter isLifecycleAction = lifecycleTable prev cur := by
  cases prev <;> cases cur <;> decide

/-- C5: for every sequence of inbound `matchTime` messages, the emitted
lifecycle notifier sequence (everything except the unconditional
`MATCH_TIME_UPDATED` data notifier) is exactly the concatenation of the
§4.2 transition table applied to each consecutive pair of match-states:
a change into AUTO_PERIOD emits MATCH_STARTED, into PAUSE_PERIOD emits
AUTO_PERIOD_ENDED, into TELEOP_PERIOD emits TELEOP_PERIOD_STARTED, into
POST_MATCH emits MATCH_ENDED, and a POST_MATCH→PRE_MATCH change refreshes
historical scores and then emits MATCH_COMMITTED_OR_DISCARDED; no lifecycle
notifier is emitted for an unchanged match-state or any transition outside
the table. -/
theorem c5_matchTime_lifecycle_table (init : MatchState) (msgs : List MatchState) :
    (processMatchTimeSeq init msgs).filter isLifecycleAction
      = ((transitionsFrom init msgs).map fun p => lifecycleTable p.1 p.2).flatten := by
  induction msgs generalizing init with
  | nil => rfl
  | cons m ms ih =>
    simp only [processMatchTimeSeq, transitionsFrom, List.filter_append, List.map_cons,
      List.flatten, ih m, handleMatchTime_lifecycle]

/-! ### Match-id allocation (`controller.py`, `_create_id_for_current_match`) -/

/-- The base name for a new match id: the arena match short-name, with
`_replay` appended when the arena reports the match as a replay. -/
def matchBaseName (shortName : String) (isReplay : Bool) : String :=
  shortName ++ (if isReplay then "_replay" else "")

/-- The candidate id probed at step `i` of the allocation loop: the base
name itself for `i = 0`, and `base_i` (a Python f-string) for `i ≥ 1`. -/
def seqId (base : String) : Nat → String
  | 0 => base
  | n + 1 => base ++ "_" ++ Nat.repr (n + 1)

/-- The `while match_id in self._matches` probe loop, with explicit fuel.
The loop body increments the sequence number and re-renders the candidate. -/
def createIdAux (matchIds : List String) (base : String) : Nat → Nat → String
  | 0, seq => seqId base seq
  | fuel + 1, seq =>
    if seqId base seq ∈ matchIds then createIdAux matchIds base fuel (seq + 1)
    else seqId base seq

/-- `VARController._create_id_for_current_match`, over the key set of
`self._matches`.  The Python loop is unbounded; `matchIds.length + 1` probes
always suffice because the candidates are pairwise distinct, so the fuelled
loop is an exact embedding. -/
def createIdForCurrentMatch (shortName : String) (isReplay : Bool)
    (matchIds : List String) : String :=
  createIdAux matchIds (matchBaseName shortName isReplay) (matchIds.length + 1) 0

theorem reprLength_pos (n : Nat) : 0 < (Nat.repr n).length := by
  cases n with
  | zero => decide
  | succ n =>
    by_contra h
    have h0 : (Nat.repr (n + 1)).length = 0 := by omega
    have hdata : (Nat.toDigits 10 (n + 1)) = [] := by
      have hlen : (Nat.toDigits 10 (n + 1)).length = 0 := by
        simpa [Nat.repr, List.asString, String.length_mk] using h0
      exact List.length_eq_zero.mp hlen
    have := digitsVal_toDigits (n + 1)
    rw [hdata] at this
    simp [digitsVal] at this

theorem seqId_injective (base : String) : Function.Injective (seqId base) := by
  intro a b hab
  match a, b with
  | 0, 0 => rfl
  | 0, n + 1 =>
    exfalso
    have := congrArg String.length hab
    simp only [seqId, String.length_append] at this
    have := reprLength_pos (n + 1)
    omega
  | n + 1, 0 =>
    exfalso
    have := congrArg String.length hab
    simp only [seqId, String.length_append] at this
    have := reprLength_pos (n + 1)
    omega
  | n + 1, m + 1 =>
    have hdata := congrArg String.data hab
    simp only [seqId, String.data_append] at hdata
    have hrepr : Nat.repr (n + 1) = Nat.repr (m + 1) := by
      rw [List.append_assoc, List.append_assoc] at hdata
      have h1 := List.append_cancel_left hdata
      exact String.ext (List.append_cancel_left h1)
    have := natRepr_injective hrepr
    omega

theorem createIdAux_spec (matchIds : List String) (base : String) :
    ∀ (fuel k seq : Nat), k ≤ fuel →
      (∀ j < k, seqId base (seq + j) ∈ matchIds) →
      seqId base (seq + k) ∉ matchIds →
      createIdAux matchIds base fuel seq = seqId base (seq + k) := by
  intro fuel
  induction fuel with
  | zero =>
    intro k seq hk _ _
    interval_cases k
    simp [createIdAux]
  | succ fuel ih =>
    intro k seq hk hmem hfree
    cases k with
    | zero =>
      simp only [Nat.add_zero] at hfree
      simp [createIdAux, hfree]
    | succ k =>
      have h0 : seqId base seq ∈ matchIds := by
        simpa using hmem 0 (Nat.succ_pos k)
      simp only [createIdAux, if_pos h0]
      have := ih k (seq + 1) (by omega)
        (fun j hj => by
          have := hmem (j + 1) (by omega)
          simpa [Nat.add_assoc, Nat.add_comm 1 j] using this)
        (by
          have : seq + 1 + k = seq + (k + 1) := by omega
          rw [this]
          exact hfree)
      rw [this]
      congr 1
      omega

/-- C7: if the match map already contains the candidates `B`, `B_1`, …,
`B_{k-1}` (all `seqId base i` with `i < k`) and `B_k` is free, the
allocated id is `B_k`: the first id in the probe sequence absent from the
map, where the base name `B` is the arena short-name plus `_replay` when
the match is a replay. -/
theorem c7_createId_first_free (shortName : String) (isReplay : Bool)
    (matchIds : List String) (k : Nat)
    (hmem : ∀ i < k, seqId (matchBaseName shortName isReplay) i ∈ matchIds)
    (hfree : seqId (matchBaseName shortName isReplay) k ∉ matchIds) :
    createIdForCurrentMatch shortName isReplay matchIds
      = seqId (matchBaseName shortName isReplay) k := by
  set base := matchBaseName shortName isReplay with hbase
  have hk : k ≤ matchIds.length := by
    have hsub : (Finset.range k).image (seqId base) ⊆ matchIds.toFinset := by
      intro s hs
      obtain ⟨i, hi, rfl⟩ := Finset.mem_image.mp hs
      exact List.mem_toFinset.mpr (hmem i (Finset.mem_range.mp hi))
    have hcard : ((Finset.range k).image (seqId base)).card = k := by
      rw [Finset.card_image_of_injective _ (seqId_injective base), Finset.card_range]
    have := Finset.card_le_card hsub
    rw [hcard] at this
    exact this.trans (matchIds.toFinset_card_le)
  have := createIdAux_spec matchIds base (matchIds.length + 1) k 0 (by omega)
    (fun j hj => by simpa using hmem j hj)
    (by simpa using hfree)
  simpa [createIdForCurrentMatch, hbase] using this

/-- Witness for C7, scenario S3 of the spec: short-name `Q5`, replay, while
`Q5`, `Q5_replay` and `Q5_replay_1` already exist; the allocated id is
`Q5_replay_2`. -/
theorem c7_createId_first_free_witness :
    createIdForCurrentMatch "Q5" true ["Q5", "Q5_replay", "Q5_replay_1"]
      = "Q5_replay_2" := by
  have h := c7_createId_first_free "Q5" true ["Q5", "Q5_replay", "Q5_replay_1"] 2
    (by decide) (by decide)
  rw [h]
  rfl

/-! ### Recorder client time math (`hyperdeck/client.py`, `hyperdeck/model.py`)

Recorder floats (`time_sec`, `frameRate`, playback speed) are embedded as `ℚ`.
Display-only timecode strings and fields never read by the embedded code
(file path, codec, resolution) are omitted from the records. -/

/-- Python `int()` applied to a number: truncation toward zero. -/
def pyInt (q : ℚ) : ℤ := if 0 ≤ q then ⌊q⌋ else -⌊-q⌋

structure VideoFormat where
  frameRate : ℚ
  deriving DecidableEq, Repr

/-- `Clip` record of `hyperdeck/model.py` (numeric fields read by the client). -/
structure Clip where
  clipUniqueId : ℤ
  videoFormat : VideoFormat
  frameCount : ℤ
  deriving DecidableEq, Repr

/-- `TimelineClip` record of `hyperdeck/model.py` (numeric fields). -/
structure TimelineClip where
  clipUniqueId : ℤ
  frameCount : ℤ
  clipIn : ℤ
  timelineIn : ℤ
  deriving DecidableEq, Repr

/-- The recorder-client state read by the playback time math: the clip list
and timeline maps (keyed by clip unique id) and the current playback
position in timeline frames. -/
structure HyperdeckState where
  clips : ℤ → Option Clip
  timeline : ℤ → Option TimelineClip
  playbackPosition : ℤ

/-- `HyperdeckClient._get_timeline_position`: clamp the requested clip frame
to the clip's extent on the timeline and offset it to a timeline position;
an unknown clip id warps to the start of the timeline (position 0). -/
def getTimelinePosition (st : HyperdeckState) (clip_id : ℤ) (time_frames : ℤ) : ℤ :=
  match st.timeline clip_id with
  | none => 0
  | some tc =>
    tc.timelineIn + min (max tc.clipIn time_frames) (tc.clipIn + tc.frameCount - 1) - tc.clipIn

/-- The timeline position PUT by `HyperdeckClient.warp_to_clip`:
`none` models the `ValueError` raised for a clip id absent from the clip
list; otherwise the requested seconds are converted to a clip frame with
Python `int(time_sec * frameRate)` and passed to `_get_timeline_position`. -/
def warpToClipPosition (st : HyperdeckState) (clip_id : ℤ) (time_sec : ℚ) : Option ℤ :=
  (st.clips clip_id).map fun clip =>
    getTimelinePosition st clip_id (pyInt (time_sec * clip.videoFormat.frameRate))

theorem pyInt_nonpos_of_neg {q : ℚ} (h : q < 0) : pyInt q ≤ 0 := by
  rw [pyInt, if_neg (not_le.mpr h)]
  have : (0 : ℤ) ≤ ⌊-q⌋ := Int.floor_nonneg.mpr (by linarith)
  omega

theorem clamp_pyInt_eq_clamp_floor (x : ℚ) (lo hi : ℤ) (hlo : 0 ≤ lo) (hle : lo ≤ hi) :
    min (max lo (pyInt x)) hi = max lo (min ⌊x⌋ hi) := by
  by_cases hx : 0 ≤ x
  · rw [pyInt, if_pos hx, max_min_distrib_left, max_eq_right hle]
  · push_neg at hx
    have h1 : pyInt x ≤ 0 := pyInt_nonpos_of_neg hx
    have h2 : ⌊x⌋ ≤ 0 := Int.floor_nonpos hx.le
    omega

/-- C8: for a clip present in both the recorder's clip list and its timeline
map, with a non-negative clip in-point and at least one frame on the
timeline, `warp_to_clip(clip, t)` requests the playback position
`timelineIn + max(clipIn, min(floor(t × frameRate), clipIn + frameCount − 1)) − clipIn`,
computed from that clip's timeline entry and its frame rate — for every
requested time `t`. -/
theorem c8_warp_position (st : HyperdeckState) (cid : ℤ) (clip : Clip)
    (tc : TimelineClip) (t : ℚ)
    (hclip : st.clips cid = some clip) (htl : st.timeline cid = some tc)
    (hin : 0 ≤ tc.clipIn) (hfc : 1 ≤ tc.frameCount) :
    warpToClipPosition st cid t
      = some (tc.timelineIn
          + max tc.clipIn (min ⌊t * clip.videoFormat.frameRate⌋
              (tc.clipIn + tc.frameCount - 1))
          - tc.clipIn) := by
  rw [warpToClipPosition, hclip, Option.map_some']
  simp only [getTimelinePosition, htl]
  rw [clamp_pyInt_eq_clamp_floor _ _ _ hin (by omega)]

/-- `HyperdeckClient.get_current_time_within_clip`: 0.0 for a clip missing
from the timeline or clip list; otherwise the playback position relative to
the clip's timeline start, clamped to `[0, frameCount − 1]`, offset by the
clip's in-point and divided by the frame rate. -/
def getCurrentTimeWithinClip (st : HyperdeckState) (clip_id : ℤ) : ℚ :=
  match st.timeline clip_id, st.clips clip_id with
  | some tc, some clip =>
    let current : ℤ := min (max 0 (st.playbackPosition - tc.timelineIn)) (tc.frameCount - 1)
    ((tc.clipIn + current : ℤ) : ℚ) / clip.videoFormat.frameRate
  | _, _ => 0

/-- A recorder state refuting C9: clip 7 sits on the timeline with an
in-point of 60 frames (`clipIn = 60`), 60 frames long at 60 fps. -/
def hdStateC9 : HyperdeckState where
  clips := fun i =>
    if i = 7 then some { clipUniqueId := 7, videoFormat := { frameRate := 60 }, frameCount := 60 }
    else none
  timeline := fun i =>
    if i = 7 then some { clipUniqueId := 7, frameCount := 60, clipIn := 60, timelineIn := 0 }
    else none
  playbackPosition := 30

/-- C9 as stated is false: with clip 7 of `hdStateC9` (frame count 60, frame
rate 60, so `clip_duration = 1` second) the function returns 1.5 seconds,
outside `[0, clip_duration)`, because the result is offset by the clip's
in-point `clipIn = 60`. -/
theorem c9_counterexample :
    ¬ (0 ≤ getCurrentTimeWithinClip hdStateC9 7 ∧
        getCurrentTimeWithinClip hdStateC9 7 < (60 : ℚ) / 60) := by
  have : getCurrentTimeWithinClip hdStateC9 7 = 3 / 2 := by
    norm_num [getCurrentTimeWithinClip, hdStateC9]
  rw [this]
  norm_num

/-- C9 amended: for a clip known to both the clip list and the timeline map
(with ≥ 1 frame, non-negative in-point, positive frame rate), the returned
time lies in `[clipIn / frameRate, (clipIn + frameCount − 1) / frameRate]` —
offset by the clip's in-point — and hence in `[0, (clipIn + frameCount) / frameRate)`;
it lies in `[0, clip_duration)` with `clip_duration = frameCount / frameRate`
only when the in-point is 0. -/
theorem c9_clip_time_bounds (st : HyperdeckState) (cid : ℤ) (clip : Clip)
    (tc : TimelineClip)
    (htl : st.timeline cid = some tc) (hclip : st.clips cid = some clip)
    (hfc : 1 ≤ tc.frameCount) (hin : 0 ≤ tc.clipIn)
    (hfps : 0 < clip.videoFormat.frameRate) :
    (tc.clipIn : ℚ) / clip.videoFormat.frameRate ≤ getCurrentTimeWithinClip st cid ∧
    getCurrentTimeWithinClip st cid
      ≤ ((tc.clipIn + tc.frameCount - 1 : ℤ) : ℚ) / clip.videoFormat.frameRate ∧
    0 ≤ getCurrentTimeWithinClip st cid ∧
    getCurrentTimeWithinClip st cid
      < ((tc.clipIn + tc.frameCount : ℤ) : ℚ) / clip.videoFormat.frameRate := by
  rw [getCurrentTimeWithinClip, htl, hclip]
  set cur : ℤ := min (max 0 (st.playbackPosition - tc.timelineIn)) (tc.frameCount - 1) with hcur
  have h0 : 0 ≤ cur := by omega
  have h1 : cur ≤ tc.frameCount - 1 := by omega
  have hlow : (tc.clipIn : ℚ) ≤ ((tc.clipIn + cur : ℤ) : ℚ) := by
    push_cast
    have : (0 : ℚ) ≤ (cur : ℚ) := by exact_mod_cast h0
    linarith
  have hhigh : ((tc.clipIn + cur : ℤ) : ℚ) ≤ ((tc.clipIn + tc.frameCount - 1 : ℤ) : ℚ) := by
    exact_mod_cast (by omega : tc.clipIn + cur ≤ tc.clipIn + tc.frameCount - 1)
  have hstrict : ((tc.clipIn + cur : ℤ) : ℚ) < ((tc.clipIn + tc.frameCount : ℤ) : ℚ) := by
    exact_mod_cast (by omega : tc.clipIn + cur < tc.clipIn + tc.frameCount)
  have hzero : (0 : ℚ) ≤ ((tc.clipIn + cur : ℤ) : ℚ) := by
    exact_mod_cast (by omega : (0 : ℤ) ≤ tc.clipIn + cur)
  exact ⟨(div_le_div_right hfps).mpr hlow, (div_le_div_right hfps).mpr hhigh,
    div_nonneg hzero hfps.le, (div_lt_div_right hfps).mpr hstrict⟩

/-- A typical recorder state: clip 42 recorded at 60 fps with 9000 frames,
placed on the timeline at position 100 with in-point 0; playback at
timeline frame 130. -/
def hdStateEx : HyperdeckState where
  clips := fun i =>
    if i = 42 then
      some { clipUniqueId := 42, videoFormat := { frameRate := 60 }, frameCount := 9000 }
    else none
  timeline := fun i =>
    if i = 42 then
      some { clipUniqueId := 42, frameCount := 9000, clipIn := 0, timelineIn := 100 }
    else none
  playbackPosition := 130

/-- Witness for C8: warping clip 42 of `hdStateEx` to 18 s requests timeline
position 100 + 18·60 = 1180. -/
theorem c8_warp_position_witness :
    warpToClipPosition hdStateEx 42 18 = some 1180 := by
  have h := c8_warp_position hdStateEx 42
    { clipUniqueId := 42, videoFormat := { frameRate := 60 }, frameCount := 9000 }
    { clipUniqueId := 42, frameCount := 9000, clipIn := 0, timelineIn := 100 }
    18 rfl rfl (by decide) (by decide)
  rw [h]
  norm_num

/-- Witness for C9 (amended): for clip 42 of `hdStateEx` the returned time
obeys all four bounds. -/
theorem c9_clip_time_bounds_witness :
    ((0 : ℤ) : ℚ) / 60 ≤ getCurrentTimeWithinClip hdStateEx 42 ∧
    getCurrentTimeWithinClip hdStateEx 42 ≤ ((0 + 9000 - 1 : ℤ) : ℚ) / 60 ∧
    0 ≤ getCurrentTimeWithinClip hdStateEx 42 ∧
    getCurrentTimeWithinClip hdStateEx 42 < ((0 + 9000 : ℤ) : ℚ) / 60 :=
  c9_clip_time_bounds hdStateEx 42
    { clipUniqueId := 42, videoFormat := { frameRate := 60 }, frameCount := 9000 }
    { clipUniqueId := 42, frameCount := 9000, clipIn := 0, timelineIn := 100 }
    rfl rfl (by decide) (by decide) (by norm_num)

/-! ### Operator gateway unsubscribe handling (`web/__init__.py`, `serve_client`) -/

/-- Result of the `WebsocketUnsubscribeRequest` branch of
`WebsocketManager.serve_client` for one request. -/
structure UnsubResult where
  /-- The client's per-connection `subscriptions` set after the removal loop. -/
  subscriptions : Finset String
  /-- Topics whose notifier `subscribers` set dropped this client, in
  processing order. -/
  removedTopics : List String
  /-- The `unsubscribed_event_types` payload of the reply.  The source
  builds it as `list(subscriptions)` after the loop (a Python set, so the
  payload is this set in unspecified order). -/
  reply : Finset String

/-- The unsubscribe branch: for each requested topic, if the client had
subscribed it on this connection, remove it from the connection's
`subscriptions` set and discard the client from that notifier's subscriber
set; then reply with `list(subscriptions)`. -/
def handleUnsubscribe (subs0 : Finset String) (requested : List String) : UnsubResult :=
  let r := requested.foldl
    (fun (acc : Finset String × List String) t =>
      if t ∈ acc.1 then (acc.1.erase t, acc.2 ++ [t]) else acc)
    (subs0, [])
  { subscriptions := r.1, removedTopics := r.2, reply := r.1 }

theorem handleUnsubscribe_loop (requested : List String) :
    ∀ (subs0 : Finset String) (acc : List String),
      (requested.foldl
        (fun (acc : Finset String × List String) t =>
          if t ∈ acc.1 then (acc.1.erase t, acc.2 ++ [t]) else acc)
        (subs0, acc)).1 = subs0.filter (fun t => t ∉ requested) ∧
      ∀ t, (t ∈ (requested.foldl
        (fun (acc : Finset String × List String) t =>
          if t ∈ acc.1 then (acc.1.erase t, acc.2 ++ [t]) else acc)
        (subs0, acc)).2 ↔ t ∈ acc ∨ (t ∈ subs0 ∧ t ∈ requested)) := by
  induction requested with
  | nil =>
    intro subs0 acc
    constructor
    · simp
    · intro t; simp
  | cons r rs ih =>
    intro subs0 acc
    simp only [List.foldl_cons]
    by_cases hr : r ∈ subs0
    · rw [if_pos hr]
      obtain ⟨h1, h2⟩ := ih (subs0.erase r) (acc ++ [r])
      constructor
      · rw [h1]
        ext t
        simp only [Finset.mem_filter, Finset.mem_erase, List.mem_cons]
        constructor
        · rintro ⟨⟨hne, hmem⟩, hnot⟩
          exact ⟨hmem, by tauto⟩
        · rintro ⟨hmem, hnot⟩
          exact ⟨⟨by tauto, hmem⟩, by tauto⟩
      · intro t
        rw [h2 t]
        simp only [List.mem_append, List.mem_singleton, Finset.mem_erase, List.mem_cons]
        by_cases ht : t = r <;> subst_eqs <;> tauto
    · rw [if_neg hr]
      obtain ⟨h1, h2⟩ := ih subs0 acc
      constructor
      · rw [h1]
        ext t
        simp only [Finset.mem_filter, List.mem_cons]
        constructor
        · rintro ⟨hmem, hnot⟩
          refine ⟨hmem, ?_⟩
          rintro (rfl | h)
          · exact hr hmem
          · exact hnot h
        · rintro ⟨hmem, hnot⟩
          exact ⟨hmem, by tauto⟩
      · intro t
        rw [h2 t]
        simp only [List.mem_cons]
        constructor
        · rintro (h | ⟨hs, hm⟩)
          · tauto
          · tauto
        · rintro (h | ⟨hs, rfl | hm⟩)
          · tauto
          · exact absurd hs hr
          · tauto

/-- C10: for every unsubscribe request, each requested topic the client had
subscribed on this connection is removed (both from the connection's
subscription set and the corresponding notifier's subscriber set), requests
for unsubscribed topics are no-ops, and the reply's
`unsubscribed_event_types` payload is the client's remaining subscription
set after removal — not the set of topics just removed. -/
theorem c10_unsubscribe_reply_lists_remaining (subs0 : Finset String)
    (requested : List String) :
    (handleUnsubscribe subs0 requested).subscriptions
        = subs0.filter (fun t => t ∉ requested) ∧
    (handleUnsubscribe subs0 requested).reply
        = subs0.filter (fun t => t ∉ requested) ∧
    ∀ t, t ∈ (handleUnsubscribe subs0 requested).removedTopics
        ↔ t ∈ subs0 ∧ t ∈ requested := by
  obtain ⟨h1, h2⟩ := handleUnsubscribe_loop requested subs0 []
  refine ⟨h1, h1, fun t => ?_⟩
  rw [handleUnsubscribe] at *
  rw [h2 t]
  simp

/-! ### Persistence store saves (`db/__init__.py`, `_save_data_file`) -/

/-- Primitive file-system operations issued by the store. -/
inductive FsOp where
  | openTruncate (path : String)
  | writeAll (path : String) (data : String)
  | rename (src dst : String)
  deriving DecidableEq, Repr

/-- `DB._save_data_file(path, data)`: `path.open("w")` (creates or truncates
the destination file in place) followed by one `f.write` of the serialized
JSON.  Both `save_match` and `save_arena_client_state` delegate here. -/
def saveDataFileOps (path : String) (json : String) : List FsOp :=
  [.openTruncate path, .writeAll path json]

/-- `DB.save_match`: serialize to `matches/{var_id}.json`. -/
def saveMatchOps (var_id : String) (json : String) : List FsOp :=
  saveDataFileOps ("matches/" ++ var_id ++ ".json") json

/-- `DB.save_arena_client_state`: serialize to `arena_client.json`. -/
def saveArenaClientStateOps (json : String) : List FsOp :=
  saveDataFileOps "arena_client.json" json

/-- Modelled from the spec: an atomic save of `data` into `path` writes the
full record to a distinct temporary file and renames it into place
("atomic-write on save"; "write to temp + rename"). -/
def IsAtomicWrite (path data : String) (ops : List FsOp) : Prop :=
  ∃ tmp, tmp ≠ path ∧
    ops = [.openTruncate tmp, .writeAll tmp data, .rename tmp path]

/-- Effect of one file-system operation on the file contents map
(`none` = file absent). -/
def applyFsOp (fs : String → Option String) : FsOp → (String → Option String)
  | .openTruncate p => fun q => if q = p then some "" else fs q
  | .writeAll p d => fun q => if q = p then some ((fs p).getD "" ++ d) else fs q
  | .rename src dst => fun q =>
      if q = dst then fs src else if q = src then none else fs q

/-- Run a list of file-system operations in order. -/
def runFsOps (fs : String → Option String) (ops : List FsOp) : String → Option String :=
  ops.foldl applyFsOp fs

/-- C4 is false as stated: the save of match `Q1` is not a temp-file-plus-
rename atomic write, and interrupting it right after the truncating open
leaves the record's file empty — neither its previous contents (`OLD`) nor
the new record (`{}`). -/
theorem c4_counterexample :
    ¬ IsAtomicWrite "matches/Q1.json" "NEWRECORD" (saveMatchOps "Q1" "NEWRECORD") ∧
    runFsOps (fun q => if q = "matches/Q1.json" then some "OLD" else none)
        ((saveMatchOps "Q1" "NEWRECORD").take 1) "matches/Q1.json" = some "" := by
  constructor
  · rintro ⟨tmp, _, heq⟩
    simp [saveMatchOps, saveDataFileOps] at heq
  · rfl

/-- C4 amended: every durable save (`save_match` and
`save_arena_client_state` via `_save_data_file`) writes the record directly
into the destination file — a truncating open followed by one write, with no
temporary file or rename, so it is not an atomic write; a completed save
leaves exactly the serialized record, but a save interrupted after the open
leaves the file empty (partially written). -/
theorem c4_save_direct_write (path json : String) (fs : String → Option String) :
    saveDataFileOps path json = [.openTruncate path, .writeAll path json] ∧
    (¬ IsAtomicWrite path json (saveDataFileOps path json)) ∧
    runFsOps fs (saveDataFileOps path json) path = some json ∧
    runFsOps fs ((saveDataFileOps path json).take 1) path = some "" := by
  refine ⟨rfl, ?_, ?_, ?_⟩
  · rintro ⟨tmp, _, heq⟩
    simp [saveDataFileOps] at heq
  · simp [saveDataFileOps, runFsOps, applyFsOp]
  · simp [saveDataFileOps, runFsOps, applyFsOp]

/-! ### Stop-recording finalization (`hyperdeck/client.py` `stop_recording`,
`controller.py` `_finalize_match_recording`) -/

/-- `ControllerState` enum of `controller.py`. -/
inductive ControllerState where
  | Idle
  | Recording
  | ReviewingCurrentMatch
  | ReviewingHistoricalMatch
  deriving DecidableEq, Repr

/-- Python exceptions that can escape the embedded controller code. -/
inductive PyErr where
  | timeoutError
  | assertionError
  deriving DecidableEq, Repr

/-- The finalization poll loop of `HyperdeckClient.stop_recording`, driven by
the reply of each successive `GET /transports/0/clip`: `polls i` is `some id`
when the i-th poll returns a fully populated clip record with unique id `id`,
`none` while the clip is not yet finalized.  Iteration `i` runs at elapsed
time `i · interval` (one `asyncio.sleep(interval)` per retry); the elapsed
time is checked against the timeout before each poll, and exceeding it
raises `TimeoutError`. -/
def stopRecordingPollGo (interval timeout : ℚ) (polls : ℕ → Option ℤ) :
    ℕ → ℕ → Except Unit ℤ
  | 0, _ => .error ()
  | fuel + 1, i =>
    if timeout ≤ (i : ℚ) * interval then .error ()
    else
      match polls i with
      | some cid => .ok cid
      | none => stopRecordingPollGo interval timeout polls fuel (i + 1)

/-- Enough fuel to reach the timeout check that fires: the loop runs at most
`⌈timeout / interval⌉` full iterations. -/
def stopRecordingFuel (interval timeout : ℚ) : ℕ := ⌈timeout / interval⌉.toNat + 1

/-- `HyperdeckClient.stop_recording` after the `POST /transports/0/stop`:
either the finalized clip's id, or `Except.error` for the raised
`TimeoutError`. -/
def stopRecordingFromPolls (interval timeout : ℚ) (polls : ℕ → Option ℤ) : Except Unit ℤ :=
  stopRecordingPollGo interval timeout polls (stopRecordingFuel interval timeout) 0

theorem stopRecordingPollGo_success (interval timeout : ℚ) (polls : ℕ → Option ℤ)
    (cid : ℤ) (hint : 0 < interval) :
    ∀ (k i fuel : ℕ), k < fuel →
      (∀ j, j < k → polls (i + j) = none) → polls (i + k) = some cid →
      ((i + k : ℕ) : ℚ) * interval < timeout →
      stopRecordingPollGo interval timeout polls fuel i = .ok cid := by
  intro k
  induction k with
  | zero =>
    intro i fuel hfuel _ hk htime
    obtain ⟨fuel, rfl⟩ : ∃ f, fuel = f + 1 := ⟨fuel - 1, by omega⟩
    rw [stopRecordingPollGo, if_neg (by push_cast at htime ⊢; linarith), Nat.add_zero] at *
    rw [hk]
  | succ k ih =>
    intro i fuel hfuel hbefore hk htime
    obtain ⟨fuel, rfl⟩ : ∃ f, fuel = f + 1 := ⟨fuel - 1, by omega⟩
    have hle : ((i : ℕ) : ℚ) * interval < timeout := by
      have h1 : ((i : ℕ) : ℚ) ≤ ((i + (k + 1) : ℕ) : ℚ) := by push_cast; linarith
      calc ((i : ℕ) : ℚ) * interval ≤ ((i + (k + 1) : ℕ) : ℚ) * interval :=
            mul_le_mul_of_nonneg_right h1 hint.le
        _ < timeout := htime
    rw [stopRecordingPollGo, if_neg (not_le.mpr hle)]
    have h0 : polls i = none := by simpa using hbefore 0 (Nat.succ_pos k)
    rw [h0]
    refine ih (i + 1) fuel (by omega) (fun j hj => ?_) ?_ ?_
    · have := hbefore (j + 1) (by omega)
      rwa [show i + 1 + j = i + (j + 1) by omega]
    · rwa [show i + 1 + k = i + (k + 1) by omega]
    · rwa [show i + 1 + k = i + (k + 1) by omega]

/-- The fuelled loop is an exact embedding of the unbounded Python loop: when
some poll before the deadline returns a finalized clip, `stop_recording`
returns its id (the fuel bound is never the reason the loop stops). -/
theorem stopRecordingFromPolls_success (interval timeout : ℚ) (polls : ℕ → Option ℤ)
    (cid : ℤ) (k : ℕ) (hint : 0 < interval)
    (hbefore : ∀ j, j < k → polls j = none) (hk : polls k = some cid)
    (htime : (k : ℚ) * interval < timeout) :
    stopRecordingFromPolls interval timeout polls = .ok cid := by
  have hq : (k : ℚ) < timeout / interval := (lt_div_iff hint).mpr htime
  have hceil : (k : ℤ) < ⌈timeout / interval⌉ := by
    rw [Int.lt_ceil]
    exact_mod_cast hq
  have hfuel : k < stopRecordingFuel interval timeout := by
    rw [stopRecordingFuel]
    omega
  exact stopRecordingPollGo_success interval timeout polls cid hint k 0 _ hfuel
    (by simpa using hbefore) (by simpa using hk) (by simpa using htime)

/-- The view of a `MatchListEntry` touched by finalization. -/
structure MatchEntryView where
  clipId : Option ℤ
  clipAvailable : Bool
  deriving DecidableEq, Repr

/-- Controller state read and written by `_finalize_match_recording`. -/
structure FinalizeState where
  state : ControllerState
  current : Option MatchEntryView
  deriving DecidableEq, Repr

/-- `VARController._finalize_match_recording`: outside `Recording` it is a
no-op; in `Recording` it asserts a current match, awaits
`hyperdeck.stop_recording()` — whose `TimeoutError` it does NOT catch, so the
error propagates with no state mutated (every mutation in the source comes
after that call) — and on success records the clip id and availability and
advances to `ReviewingCurrentMatch`. -/
def finalizeMatchRecording (hasPlayableClip : ℤ → Bool)
    (stopResult : Except Unit ℤ) (st : FinalizeState) : FinalizeState × Option PyErr :=
  if st.state ≠ ControllerState.Recording then (st, none)
  else
    match st.current with
    | none => (st, some .assertionError)
    | some _ =>
      match stopResult with
      | .error _ => (st, some .timeoutError)
      | .ok clip_id =>
        ({ state := .ReviewingCurrentMatch,
           current := some { clipId := some clip_id,
                             clipAvailable := hasPlayableClip clip_id } }, none)

theorem stopRecordingPollGo_timeout (interval timeout : ℚ) (polls : ℕ → Option ℤ)
    (hpolls : ∀ i, polls i = none) :
    ∀ (fuel i : ℕ), stopRecordingPollGo interval timeout polls fuel i = .error () := by
  intro fuel
  induction fuel with
  | zero => intro i; rfl
  | succ fuel ih =>
    intro i
    rw [stopRecordingPollGo]
    by_cases h : timeout ≤ (i : ℚ) * interval
    · rw [if_pos h]
    · rw [if_neg h, hpolls i]
      exact ih (i + 1)

/-- A controller in mid-match recording with the current match's clip-id not
yet assigned. -/
def recordingStateEx : FinalizeState :=
  { state := .Recording, current := some { clipId := none, clipAvailable := false } }

/-- C3 as stated is false: when the delayed stop fires in `Recording` and the
finalization poll times out, the `TimeoutError` propagates out of
`_finalize_match_recording` uncaught, so the controller does NOT advance to
`ReviewingCurrentMatch` — it stays in `Recording` (clip-id still unset,
clip-available still false). -/
theorem c3_counterexample :
    (finalizeMatchRecording (fun _ => true)
        (stopRecordingFromPolls (1/4) 5 (fun _ => none)) recordingStateEx).2
      = some .timeoutError ∧
    (finalizeMatchRecording (fun _ => true)
        (stopRecordingFromPolls (1/4) 5 (fun _ => none)) recordingStateEx).1
      = recordingStateEx ∧
    recordingStateEx.state ≠ ControllerState.ReviewingCurrentMatch := by
  have hstop : stopRecordingFromPolls (1/4) 5 (fun _ => none) = .error () :=
    stopRecordingPollGo_timeout (1/4) 5 (fun _ => none) (fun _ => rfl) _ 0
  rw [stopRecordingFromPolls] at hstop
  refine ⟨?_, ?_, by decide⟩ <;>
    rw [stopRecordingFromPolls, hstop] <;> rfl

/-- C3 amended: if every finalization poll reply is still unfinalized, the
poll loop raises the typed `TimeoutError`; `_finalize_match_recording` does
not catch it, so when the delayed stop fires in state `Recording` with a
current match the error propagates, the state machine does not advance —
the controller remains in `Recording` and the current match keeps its unset
clip-id and `clip_available = false`. -/
theorem c3_finalize_timeout_no_advance (interval timeout : ℚ) (polls : ℕ → Option ℤ)
    (hpolls : ∀ i, polls i = none) (hasPlayableClip : ℤ → Bool)
    (st : FinalizeState) (m : MatchEntryView)
    (hst : st.state = ControllerState.Recording) (hcur : st.current = some m) :
    stopRecordingFromPolls interval timeout polls = .error () ∧
    finalizeMatchRecording hasPlayableClip
        (stopRecordingFromPolls interval timeout polls) st = (st, some .timeoutError) := by
  have hstop : stopRecordingFromPolls interval timeout polls = .error () :=
    stopRecordingPollGo_timeout interval timeout polls hpolls _ 0
  refine ⟨hstop, ?_⟩
  rw [hstop, finalizeMatchRecording, if_neg (by simp [hst]), hcur]

/-- Witness for C3 (amended), at the default settings (poll every 0.25 s,
5 s timeout) and the mid-recording state `recordingStateEx`. -/
theorem c3_finalize_timeout_no_advance_witness :
    stopRecordingFromPolls (1/4) 5 (fun _ => none) = .error () ∧
    finalizeMatchRecording (fun _ => true)
        (stopRecordingFromPolls (1/4) 5 (fun _ => none)) recordingStateEx
      = (recordingStateEx, some .timeoutError) :=
  c3_finalize_timeout_no_advance (1/4) 5 (fun _ => none) (fun _ => rfl)
    (fun _ => true) recordingStateEx { clipId := none, clipAvailable := false }
    rfl rfl

/-! ### Event bus (`web/__init__.py`, `WebsocketManager`)

Operator client connections are identified by handles (`ℕ`).  The set of
registered topics (`self._notifiers`) is fixed at startup by
`add_event_type`; each connection task keeps its local `subscriptions` set.

Two models of the subscriber side follow.  `BusState` is the INTENDED
per-topic bus, modelled from the spec (§4.5: each topic has its own
subscriber set of connections; §9: "model topics as named channels ...
subscribers are per-connection IDs") — it is what the `Notifier` record
shape, the per-topic `subscribers.add`/`discard` calls and the per-topic
disconnect loop of the source are all written against.  `BusStateShared`
below is the source as it actually executes: the `Notifier` NamedTuple
default `subscribers: Set[WebSocket] = set()` (web/__init__.py:43) is
evaluated once at class definition and `add_event_type` never passes the
field, so every notifier aliases one and the same set object. -/

/-- Modelled from the spec: the intended per-topic bus state — the
registered topics, one `subscribers` set per topic, and each connection's
local `subscriptions` set. -/
structure BusState where
  known : Finset String
  topicSubs : String → Finset ℕ
  clientSubs : ℕ → Finset String

/-- Bus state at startup: topics registered, nobody subscribed. -/
def busInit (known : Finset String) : BusState :=
  { known := known, topicSubs := fun _ => ∅, clientSubs := fun _ => ∅ }

/-- Client-visible bus operations. -/
inductive BusAction where
  | subscribe (c : ℕ) (topics : List String)
  | unsubscribe (c : ℕ) (topics : List String)
  | disconnect (c : ℕ)
  | notify (topic : String)

/-- One step of the subscribe loop of `serve_client`, under the intended
per-topic semantics: an unknown topic is logged and skipped; a known one is
added to that topic's subscriber set and the connection's `subscriptions`
set. -/
def applySubscribeStep (c : ℕ) (st : BusState) (t : String) : BusState :=
  if t ∈ st.known then
    { st with
      topicSubs := fun u => if u = t then insert c (st.topicSubs u) else st.topicSubs u,
      clientSubs := fun d => if d = c then insert t (st.clientSubs d) else st.clientSubs d }
  else st

/-- One step of the unsubscribe loop of `serve_client`, under the intended
per-topic semantics: only topics present in the connection's
`subscriptions` set are removed (from that set and from that topic's
subscriber set). -/
def applyUnsubscribeStep (c : ℕ) (st : BusState) (t : String) : BusState :=
  if t ∈ st.clientSubs c then
    { st with
      topicSubs := fun u => if u = t then (st.topicSubs u).erase c else st.topicSubs u,
      clientSubs := fun d => if d = c then (st.clientSubs d).erase t else st.clientSubs d }
  else st

/-- The `finally` block of `serve_client`, under the intended per-topic
semantics: the disconnecting client is discarded from the subscriber set of
every topic in its `subscriptions` set, and its connection-local state is
gone. -/
def applyDisconnect (c : ℕ) (st : BusState) : BusState :=
  { st with
    topicSubs := fun u => if u ∈ st.clientSubs c then (st.topicSubs u).erase c else st.topicSubs u,
    clientSubs := fun d => if d = c then ∅ else st.clientSubs d }

/-- One bus operation under the intended per-topic semantics: the resulting
state and the `(client, topic)` event messages sent.  `notify` on an
unknown topic is logged and sends nothing; otherwise it snapshots that
topic's subscriber set and sends the event to each member once. -/
def busStep (st : BusState) : BusAction → BusState × List (ℕ × String)
  | .subscribe c ts => (ts.foldl (applySubscribeStep c) st, [])
  | .unsubscribe c ts => (ts.foldl (applyUnsubscribeStep c) st, [])
  | .disconnect c => (applyDisconnect c st, [])
  | .notify t =>
    (st, if t ∈ st.known then
      ((st.topicSubs t).sort (· ≤ ·)).map (fun c => (c, t)) else [])

/-- The bus state after a sequence of operations. -/
def busRun (st : BusState) : List BusAction → BusState
  | [] => st
  | a :: tr => busRun (busStep st a).1 tr

/-- Written from the claim's words: client `c` is currently subscribed to
topic `t` after the trace when it subscribed `t` earlier on that connection
(a subscribe request naming `t`, for a registered topic) and has not since
unsubscribed `t` or disconnected.  `b` is the subscription status carried
into the trace. -/
def specSubscribedFrom (known : Finset String) (c : ℕ) (t : String) :
    Prop → List BusAction → Prop
  | P, [] => P
  | P, .subscribe c' ts :: tr =>
    specSubscribedFrom known c t ((c' = c ∧ t ∈ ts ∧ t ∈ known) ∨ P) tr
  | P, .unsubscribe c' ts :: tr =>
    specSubscribedFrom known c t (¬(c' = c ∧ t ∈ ts) ∧ P) tr
  | P, .disconnect c' :: tr =>
    specSubscribedFrom known c t (c' ≠ c ∧ P) tr
  | P, .notify _ :: tr => specSubscribedFrom known c t P tr

/-- The linking invariant of the two subscription structures: a client is in
a notifier's `subscribers` set exactly when that (registered) topic is in
the client's `subscriptions` set. -/
def BusInv (st : BusState) : Prop :=
  ∀ c t, c ∈ st.topicSubs t ↔ t ∈ st.clientSubs c ∧ t ∈ st.known

theorem busInit_inv (known : Finset String) : BusInv (busInit known) := by
  intro c t
  simp [busInit]

theorem applySubscribeStep_known (c : ℕ) (st : BusState) (t : String) :
    (applySubscribeStep c st t).known = st.known := by
  rw [applySubscribeStep]
  split <;> rfl

theorem applyUnsubscribeStep_known (c : ℕ) (st : BusState) (t : String) :
    (applyUnsubscribeStep c st t).known = st.known := by
  rw [applyUnsubscribeStep]
  split <;> rfl

theorem subscribeLoop_known (c : ℕ) (ts : List String) :
    ∀ st : BusState, (ts.foldl (applySubscribeStep c) st).known = st.known := by
  induction ts with
  | nil => intro st; rfl
  | cons t ts ih =>
    intro st
    rw [List.foldl_cons, ih, applySubscribeStep_known]

theorem unsubscribeLoop_known (c : ℕ) (ts : List String) :
    ∀ st : BusState, (ts.foldl (applyUnsubscribeStep c) st).known = st.known := by
  induction ts with
  | nil => intro st; rfl
  | cons t ts ih =>
    intro st
    rw [List.foldl_cons, ih, applyUnsubscribeStep_known]

theorem busStep_known (st : BusState) (a : BusAction) :
    (busStep st a).1.known = st.known := by
  cases a with
  | subscribe c ts => exact subscribeLoop_known c ts st
  | unsubscribe c ts => exact unsubscribeLoop_known c ts st
  | disconnect c => rfl
  | notify t => rfl

theorem applySubscribeStep_inv (c : ℕ) (st : BusState) (t : String) (h : BusInv st) :
    BusInv (applySubscribeStep c st t) := by
  intro d u
  rw [applySubscribeStep]
  by_cases hk : t ∈ st.known
  · rw [if_pos hk]
    simp only []
    by_cases hu : u = t
    · subst hu
      by_cases hd : d = c
      · subst hd
        simp [hk]
      · simp [hd, Finset.mem_insert, h d u]
    · rw [if_neg hu]
      by_cases hd : d = c
      · subst hd
        simp [Finset.mem_insert, hu, h d u]
      · simp [hd, h d u]
  · rw [if_neg hk]
    exact h d u

theorem applyUnsubscribeStep_inv (c : ℕ) (st : BusState) (t : String) (h : BusInv st) :
    BusInv (applyUnsubscribeStep c st t) := by
  intro d u
  rw [applyUnsubscribeStep]
  by_cases hs : t ∈ st.clientSubs c
  · rw [if_pos hs]
    simp only []
    by_cases hu : u = t
    · subst hu
      by_cases hd : d = c
      · subst hd
        simp
      · simp [hd, Finset.mem_erase, Ne.symm hd, h d u]
    · rw [if_neg hu]
      by_cases hd : d = c
      · subst hd
        simp [Finset.mem_erase, hu, h d u]
      · simp [hd, h d u]
  · rw [if_neg hs]
    exact h d u

theorem applyDisconnect_inv (c : ℕ) (st : BusState) (h : BusInv st) :
    BusInv (applyDisconnect c st) := by
  intro d u
  rw [applyDisconnect]
  simp only []
  by_cases hd : d = c
  · subst hd
    by_cases hu : u ∈ st.clientSubs d
    · simp [hu, Finset.mem_erase]
    · simp only [if_neg hu, if_pos rfl]
      simp [h d u, hu]
  · by_cases hu : u ∈ st.clientSubs c
    · simp [hu, hd, Finset.mem_erase, Ne.symm hd, h d u]
    · simp [hu, hd, h d u]

theorem subscribeLoop_inv (c : ℕ) (ts : List String) :
    ∀ st : BusState, BusInv st → BusInv (ts.foldl (applySubscribeStep c) st) := by
  induction ts with
  | nil => intro st h; exact h
  | cons t ts ih =>
    intro st h
    exact ih _ (applySubscribeStep_inv c st t h)

theorem unsubscribeLoop_inv (c : ℕ) (ts : List String) :
    ∀ st : BusState, BusInv st → BusInv (ts.foldl (applyUnsubscribeStep c) st) := by
  induction ts with
  | nil => intro st h; exact h
  | cons t ts ih =>
    intro st h
    exact ih _ (applyUnsubscribeStep_inv c st t h)

theorem busStep_inv (st : BusState) (a : BusAction) (h : BusInv st) :
    BusInv (busStep st a).1 := by
  cases a with
  | subscribe c ts => exact subscribeLoop_inv c ts st h
  | unsubscribe c ts => exact unsubscribeLoop_inv c ts st h
  | disconnect c => exact applyDisconnect_inv c st h
  | notify t => exact h

theorem specSubscribedFrom_congr (known : Finset String) (c : ℕ) (t : String) :
    ∀ (tr : List BusAction) (P Q : Prop), (P ↔ Q) →
      (specSubscribedFrom known c t P tr ↔ specSubscribedFrom known c t Q tr) := by
  intro tr
  induction tr with
  | nil => intro P Q h; exact h
  | cons a tr ih =>
    intro P Q h
    cases a with
    | subscribe c' ts => exact ih _ _ (by tauto)
    | unsubscribe c' ts => exact ih _ _ (by tauto)
    | disconnect c' => exact ih _ _ (by tauto)
    | notify t' => exact ih _ _ h

theorem applySubscribeStep_mem (c' c : ℕ) (t u : String) (st : BusState) :
    c ∈ (applySubscribeStep c' st u).topicSubs t
      ↔ (c' = c ∧ t = u ∧ u ∈ st.known) ∨ c ∈ st.topicSubs t := by
  rw [applySubscribeStep]
  by_cases hk : u ∈ st.known
  · rw [if_pos hk]
    simp only []
    by_cases ht : t = u
    · subst ht
      simp [Finset.mem_insert, hk, eq_comm]
    · simp [ht]
  · rw [if_neg hk]
    simp [hk]

theorem subscribeLoop_mem (c' c : ℕ) (t : String) :
    ∀ (ts : List String) (st : BusState),
      c ∈ (ts.foldl (applySubscribeStep c') st).topicSubs t
        ↔ (c' = c ∧ t ∈ ts ∧ t ∈ st.known) ∨ c ∈ st.topicSubs t := by
  intro ts
  induction ts with
  | nil => intro st; simp
  | cons u ts ih =>
    intro st
    rw [List.foldl_cons, ih, applySubscribeStep_known, applySubscribeStep_mem]
    by_cases htu : t = u
    · subst htu
      simp only [List.mem_cons]
      tauto
    · simp only [List.mem_cons]
      tauto

theorem applyUnsubscribeStep_mem (c' c : ℕ) (t u : String) (st : BusState)
    (h : BusInv st) :
    c ∈ (applyUnsubscribeStep c' st u).topicSubs t
      ↔ c ∈ st.topicSubs t ∧ ¬(c' = c ∧ t = u) := by
  rw [applyUnsubscribeStep]
  by_cases hs : u ∈ st.clientSubs c'
  · rw [if_pos hs]
    simp only []
    by_cases ht : t = u
    · subst ht
      simp [Finset.mem_erase, eq_comm, and_comm]
    · simp [ht]
  · rw [if_neg hs]
    by_cases hcc : c' = c ∧ t = u
    · obtain ⟨hc1, hc2⟩ := hcc
      constructor
      · intro hm
        have hcs := ((h c t).mp hm).1
        rw [hc2] at hcs
        rw [← hc1] at hcs
        exact absurd hcs hs
      · rintro ⟨_, hf⟩
        exact absurd ⟨hc1, hc2⟩ hf
    · simp [hcc]

theorem unsubscribeLoop_mem (c' c : ℕ) (t : String) :
    ∀ (ts : List String) (st : BusState), BusInv st →
      (c ∈ (ts.foldl (applyUnsubscribeStep c') st).topicSubs t
        ↔ c ∈ st.topicSubs t ∧ ¬(c' = c ∧ t ∈ ts)) := by
  intro ts
  induction ts with
  | nil => intro st _; simp
  | cons u ts ih =>
    intro st h
    rw [List.foldl_cons, ih _ (applyUnsubscribeStep_inv c' st u h),
      applyUnsubscribeStep_mem c' c t u st h]
    simp only [List.mem_cons]
    tauto

theorem applyDisconnect_mem (c' c : ℕ) (t : String) (st : BusState) (h : BusInv st) :
    c ∈ (applyDisconnect c' st).topicSubs t ↔ c ∈ st.topicSubs t ∧ c' ≠ c := by
  rw [applyDisconnect]
  simp only []
  by_cases ht : t ∈ st.clientSubs c'
  · rw [if_pos ht]
    simp [Finset.mem_erase, eq_comm, and_comm]
  · rw [if_neg ht]
    by_cases hcc : c' = c
    · subst hcc
      constructor
      · intro hm
        exact absurd ((h c' t).mp hm).1 ht
      · rintro ⟨_, hf⟩
        exact absurd rfl hf
    · simp [hcc]

theorem busRun_mem (c : ℕ) (t : String) :
    ∀ (tr : List BusAction) (st : BusState), BusInv st →
      (c ∈ (busRun st tr).topicSubs t
        ↔ specSubscribedFrom st.known c t (c ∈ st.topicSubs t) tr) := by
  intro tr
  induction tr with
  | nil => intro st _; exact Iff.rfl
  | cons a tr ih =>
    intro st h
    cases a with
    | subscribe c' ts =>
      rw [busRun]
      have hstep : (busStep st (.subscribe c' ts)).1 = ts.foldl (applySubscribeStep c') st := rfl
      rw [hstep, ih _ (subscribeLoop_inv c' ts st h), subscribeLoop_known]
      exact specSubscribedFrom_congr st.known c t tr _ _ (subscribeLoop_mem c' c t ts st)
    | unsubscribe c' ts =>
      rw [busRun]
      have hstep : (busStep st (.unsubscribe c' ts)).1 = ts.foldl (applyUnsubscribeStep c') st := rfl
      rw [hstep, ih _ (unsubscribeLoop_inv c' ts st h), unsubscribeLoop_known]
      exact specSubscribedFrom_congr st.known c t tr _ _
        ((unsubscribeLoop_mem c' c t ts st h).trans (by tauto))
    | disconnect c' =>
      rw [busRun]
      have hstep : (busStep st (.disconnect c')).1 = applyDisconnect c' st := rfl
      rw [hstep, ih _ (applyDisconnect_inv c' st h)]
      exact specSubscribedFrom_congr st.known c t tr _ _
        ((applyDisconnect_mem c' c t st h).trans (by tauto))
    | notify t' =>
      rw [busRun]
      exact ih st h

theorem busRun_inv (tr : List BusAction) :
    ∀ st : BusState, BusInv st → BusInv (busRun st tr) := by
  induction tr with
  | nil => intro st h; exact h
  | cons a tr ih =>
    intro st h
    exact ih _ (busStep_inv st a h)

/-- Number of copies of the event for topic `t` that client `c` receives
from one batch of sent messages. -/
def deliveredCount (msgs : List (ℕ × String)) (c : ℕ) (t : String) : ℕ :=
  (msgs.filter (fun m => m.1 = c ∧ m.2 = t)).length

theorem deliveredCount_map (l : List ℕ) (c : ℕ) (t : String) :
    deliveredCount (l.map (fun d => (d, t))) c t = l.count c := by
  induction l with
  | nil => rfl
  | cons d l ih =>
    by_cases hd : d = c
    · subst hd
      simp [deliveredCount, List.count_cons] at ih ⊢
      omega
    · simp [deliveredCount, List.count_cons, hd] at ih ⊢
      omega

/-- Under the intended per-topic bus semantics, the claimed delivery
contract holds: for every trace of client operations and every client `c`
and topic `t`, a `notify(t)` call delivers the event to `c` at most once,
and exactly once precisely when `c` is currently subscribed to `t` — i.e.
`c` subscribed `t` (a registered topic) earlier on that connection and has
not since unsubscribed it or disconnected.  In particular a client
subscribed only to other topics receives nothing from `notify(t)`. -/
theorem notify_delivery_matches_intended_bus (K : Finset String) (tr : List BusAction)
    (c : ℕ) (t : String) :
    deliveredCount (busStep (busRun (busInit K) tr) (.notify t)).2 c t ≤ 1 ∧
    (deliveredCount (busStep (busRun (busInit K) tr) (.notify t)).2 c t = 1
      ↔ specSubscribedFrom K c t False tr) := by
  set st := busRun (busInit K) tr with hst
  have hinv : BusInv st := busRun_inv tr _ (busInit_inv K)
  have hmem : c ∈ st.topicSubs t ↔ specSubscribedFrom K c t False tr := by
    rw [hst, busRun_mem c t tr _ (busInit_inv K)]
    exact specSubscribedFrom_congr _ c t tr _ _ (by simp [busInit])
  have hout : (busStep st (.notify t)).2
      = if t ∈ st.known then ((st.topicSubs t).sort (· ≤ ·)).map (fun d => (d, t)) else [] := rfl
  by_cases hk : t ∈ st.known
  · rw [hout, if_pos hk, deliveredCount_map]
    by_cases hc : c ∈ st.topicSubs t
    · have hmem' : c ∈ (st.topicSubs t).sort (· ≤ ·) := (Finset.mem_sort _).mpr hc
      have h1 : ((st.topicSubs t).sort (· ≤ ·)).count c = 1 :=
        List.count_eq_one_of_mem (Finset.sort_nodup _ _) hmem'
      rw [h1]
      exact ⟨le_refl 1, by simpa [hmem] using hc⟩
    · have h0 : ((st.topicSubs t).sort (· ≤ ·)).count c = 0 :=
        List.count_eq_zero_of_not_mem (fun hmem' => hc ((Finset.mem_sort _).mp hmem'))
      rw [h0]
      refine ⟨by omega, by omega, fun hspec => absurd (hmem.mpr hspec) hc⟩
  · rw [hout, if_neg hk]
    have hc : c ∉ st.topicSubs t := fun hmem' => hk ((hinv c t).mp hmem').2
    refine ⟨by simp [deliveredCount], ?_⟩
    refine ⟨by simp [deliveredCount], fun hspec => absurd (hmem.mpr hspec) hc⟩

/-! The bus as the source actually executes.  `WebsocketManager.Notifier`
is a `NamedTuple` with default `subscribers: Set[WebSocket] = set()`
(web/__init__.py:43); the default is evaluated once when the class is
defined and `add_event_type` (line 68) never passes the field, so every
`Notifier` holds a reference to ONE shared set object.  `notifier.
subscribers.add` on any topic, `discard` on any topic, and the snapshot
taken by `notify` all act on that single set. -/

/-- The bus state as shipped: the registered topics, the one `subscribers`
set aliased by every notifier (a Python set, modelled as a duplicate-free
list in insertion order), and each connection's local `subscriptions` set
(the per-connection sets are genuinely separate — `subscriptions = set()`
is created per call in `serve_client`). -/
structure BusStateShared where
  known : List String
  sharedSubs : List ℕ
  clientSubs : ℕ → List String

/-- Shared-set bus at startup. -/
def busSharedInit (known : List String) : BusStateShared :=
  { known := known, sharedSubs := [], clientSubs := fun _ => [] }

/-- Python `set.add`: a no-op on a present element. -/
def setAdd (l : List ℕ) (c : ℕ) : List ℕ := if c ∈ l then l else l ++ [c]

/-- Python `set.add` for topic names. -/
def setAddStr (l : List String) (t : String) : List String := if t ∈ l then l else l ++ [t]

/-- One step of the subscribe loop as executed: `notifier.subscribers.add`
mutates the single shared set, whichever known topic is being subscribed. -/
def applySubscribeStepShared (c : ℕ) (st : BusStateShared) (t : String) : BusStateShared :=
  if t ∈ st.known then
    { st with
      sharedSubs := setAdd st.sharedSubs c,
      clientSubs := fun d => if d = c then setAddStr (st.clientSubs d) t else st.clientSubs d }
  else st

/-- One step of the unsubscribe loop as executed: for a topic the
connection had subscribed, `discard` removes the client from the single
shared set — cutting its delivery for every topic at once. -/
def applyUnsubscribeStepShared (c : ℕ) (st : BusStateShared) (t : String) : BusStateShared :=
  if t ∈ st.clientSubs c then
    { st with
      sharedSubs := st.sharedSubs.erase c,
      clientSubs := fun d => if d = c then (st.clientSubs d).erase t else st.clientSubs d }
  else st

/-- The `finally` block as executed: one `discard` per subscribed topic,
all against the same shared set (no-op when the connection had no
subscriptions). -/
def applyDisconnectShared (c : ℕ) (st : BusStateShared) : BusStateShared :=
  { st with
    sharedSubs := if st.clientSubs c = [] then st.sharedSubs else st.sharedSubs.erase c,
    clientSubs := fun d => if d = c then [] else st.clientSubs d }

/-- One bus operation as executed: `notify` on a known topic snapshots the
single shared set and sends that topic's event to each member once —
including clients that subscribed only to other topics. -/
def busStepShared (st : BusStateShared) : BusAction → BusStateShared × List (ℕ × String)
  | .subscribe c ts => (ts.foldl (applySubscribeStepShared c) st, [])
  | .unsubscribe c ts => (ts.foldl (applyUnsubscribeStepShared c) st, [])
  | .disconnect c => (applyDisconnectShared c st, [])
  | .notify t =>
    (st, if t ∈ st.known then st.sharedSubs.map (fun c => (c, t)) else [])

/-- The shared-set bus state after a sequence of operations. -/
def busRunShared (st : BusStateShared) : List BusAction → BusStateShared
  | [] => st
  | a :: tr => busRunShared (busStepShared st a).1 tr

/-- C2 fails on the code as shipped, because every notifier aliases the one
`subscribers` set: with topics `controller_status` and `match_list`
registered, (i) client 1 subscribes only to `match_list`, yet
`notify("controller_status")` delivers the `controller_status` event to it
(the claim requires it to receive nothing); and (ii) after subscribing to
both topics and unsubscribing only `match_list`, client 1 receives nothing
from `notify("controller_status")` although it is still subscribed to that
exact topic. -/
theorem c2_shared_subscriber_set_leak :
    deliveredCount
        (busStepShared
          (busRunShared (busSharedInit ["controller_status", "match_list"])
            [.subscribe 1 ["match_list"]])
          (.notify "controller_status")).2 1 "controller_status" = 1 ∧
    deliveredCount
        (busStepShared
          (busRunShared (busSharedInit ["controller_status", "match_list"])
            [.subscribe 1 ["match_list", "controller_status"],
             .unsubscribe 1 ["match_list"]])
          (.notify "controller_status")).2 1 "controller_status" = 0 := by
  constructor
  · rfl
  · rfl

/-! ### Coordinator state machine (`controller.py`)

Projection of the `VARController` mutable state onto the fields governed by
the current-match invariant: `_state`, `_current_match` (by internal match
id) and the key set of `_matches`.  Handlers are modelled as they execute
under the controller lock in normal operation (recorder and persistence
calls complete without raising). -/

structure CtrlState where
  state : ControllerState
  current : Option String
  matchIds : List String
  deriving DecidableEq, Repr

/-- `VARController.__init__`: starts `Idle` with no current match, with the
match list loaded from the database. -/
def ctrlInit (storedMatches : List String) : CtrlState :=
  { state := .Idle, current := none, matchIds := storedMatches }

/-- `_save_and_unload_current_match`: with no current match it does nothing;
otherwise, if recording, recording stops and the state drops to `Idle`; the
match is (re-)entered into the match map and saved, and the current-match
reference is cleared. -/
def saveAndUnloadCurrentMatch (st : CtrlState) : CtrlState :=
  match st.current with
  | none => st
  | some m =>
    { state := if st.state = .Recording then .Idle else st.state,
      current := none,
      matchIds := if m ∈ st.matchIds then st.matchIds else m :: st.matchIds }

/-- `_handle_match_start`: unload any previous current match, enter
`Recording`, allocate the new match id from the arena match name, create the
record and make it current. -/
def handleMatchStart (shortName : String) (isReplay : Bool) (st : CtrlState) : CtrlState :=
  let st1 := saveAndUnloadCurrentMatch st
  let id := createIdForCurrentMatch shortName isReplay st1.matchIds
  { state := .Recording, current := some id, matchIds := id :: st1.matchIds }

/-- `_finalize_match_recording` (state projection): no-op outside
`Recording`; in `Recording` the assertion requires a current match (when it
fails, the exception escapes before anything is mutated), and on success the
state advances to `ReviewingCurrentMatch` with the same current match. -/
def finalizeRecordingStep (st : CtrlState) : CtrlState :=
  if st.state ≠ ControllerState.Recording then st
  else
    match st.current with
    | none => st
    | some _ => { st with state := .ReviewingCurrentMatch }

/-- `_handle_match_commit`: ignored while reviewing a historical match;
otherwise save-and-unload the current match and settle in `Idle`. -/
def handleMatchCommit (st : CtrlState) : CtrlState :=
  if st.state = .ReviewingHistoricalMatch then st
  else { saveAndUnloadCurrentMatch st with state := .Idle }

/-- `_handle_load_match_command`: only honoured in `Idle` or
`ReviewingHistoricalMatch`, and only for a known match id; the loaded match
becomes current and the state becomes `ReviewingHistoricalMatch`. -/
def handleLoadMatch (id : String) (st : CtrlState) : CtrlState :=
  if st.state = .Idle ∨ st.state = .ReviewingHistoricalMatch then
    if id ∈ st.matchIds then
      { st with current := some id, state := .ReviewingHistoricalMatch }
    else st
  else st

/-- `_handle_exit_review_command`: only honoured in
`ReviewingHistoricalMatch`; unloads the current match and returns to `Idle`. -/
def handleExitReview (st : CtrlState) : CtrlState :=
  if st.state = .ReviewingHistoricalMatch then
    { saveAndUnloadCurrentMatch st with state := .Idle }
  else st

/-- The lifecycle notifications and operator commands that reach the
coordinator.  `autoPeriodEnd`, `matchEnd`, `addVarReview`, `warpToTime` and
`updateEvent` only append to or edit event lists (or drive playback), so on
this state projection they are identities; `dataUpdate` stands for all the
pure UI-data notifications. -/
inductive CtrlAction where
  | matchStart (shortName : String) (isReplay : Bool)
  | autoPeriodEnd
  | matchEnd
  | delayedStopFires
  | matchCommit
  | loadMatch (id : String)
  | exitReview
  | addVarReview
  | warpToTime
  | updateEvent
  | dataUpdate

/-- One coordinator handler execution. -/
def ctrlStep (st : CtrlState) : CtrlAction → CtrlState
  | .matchStart shortName isReplay => handleMatchStart shortName isReplay st
  | .autoPeriodEnd => st
  | .matchEnd => st
  | .delayedStopFires => finalizeRecordingStep st
  | .matchCommit => handleMatchCommit st
  | .loadMatch id => handleLoadMatch id st
  | .exitReview => handleExitReview st
  | .addVarReview => st
  | .warpToTime => st
  | .updateEvent => st
  | .dataUpdate => st

/-- States reachable from startup through any sequence of lifecycle
notifications and operator commands. -/
inductive CtrlReachable (storedMatches : List String) : CtrlState → Prop where
  | init : CtrlReachable storedMatches (ctrlInit storedMatches)
  | step {st : CtrlState} (h : CtrlReachable storedMatches st) (a : CtrlAction) :
      CtrlReachable storedMatches (ctrlStep st a)

/-- The claimed invariant: a current match exists in each of the three
non-idle states, and none exists in `Idle`. -/
def CurrentMatchInv (st : CtrlState) : Prop :=
  (st.state = .Idle → st.current = none) ∧
  (st.state = .Recording ∨ st.state = .ReviewingCurrentMatch ∨
      st.state = .ReviewingHistoricalMatch → st.current ≠ none)

theorem ctrlStep_inv (st : CtrlState) (a : CtrlAction) (h : CurrentMatchInv st) :
    CurrentMatchInv (ctrlStep st a) := by
  obtain ⟨hidle, hbusy⟩ := h
  cases a with
  | matchStart shortName isReplay =>
    constructor
    · intro hst
      simp [ctrlStep, handleMatchStart] at hst
    · intro _
      simp [ctrlStep, handleMatchStart]
  | autoPeriodEnd => exact ⟨hidle, hbusy⟩
  | matchEnd => exact ⟨hidle, hbusy⟩
  | delayedStopFires =>
    rw [ctrlStep, finalizeRecordingStep]
    by_cases hrec : st.state = ControllerState.Recording
    · rw [if_neg (by simp [hrec])]
      match hcur : st.current with
      | none => exact ⟨hidle, hbusy⟩
      | some m =>
        constructor
        · intro hst
          simp at hst
        · intro _
          simp [hcur]
    · rw [if_pos hrec]
      exact ⟨hidle, hbusy⟩
  | matchCommit =>
    rw [ctrlStep, handleMatchCommit]
    by_cases hh : st.state = ControllerState.ReviewingHistoricalMatch
    · rw [if_pos hh]
      exact ⟨hidle, hbusy⟩
    · rw [if_neg hh]
      constructor
      · intro _
        rcases hcur : st.current with _ | m <;>
          simp [saveAndUnloadCurrentMatch, hcur]
      · intro hne
        exfalso
        rcases hne with h | h | h <;> simp at h
  | loadMatch id =>
    rw [ctrlStep, handleLoadMatch]
    by_cases h1 : st.state = ControllerState.Idle ∨ st.state = ControllerState.ReviewingHistoricalMatch
    · rw [if_pos h1]
      by_cases h2 : id ∈ st.matchIds
      · rw [if_pos h2]
        exact ⟨fun hst => by simp at hst, fun _ => by simp⟩
      · rw [if_neg h2]
        exact ⟨hidle, hbusy⟩
    · rw [if_neg h1]
      exact ⟨hidle, hbusy⟩
  | exitReview =>
    rw [ctrlStep, handleExitReview]
    by_cases hh : st.state = ControllerState.ReviewingHistoricalMatch
    · rw [if_pos hh]
      constructor
      · intro _
        rcases hcur : st.current with _ | m <;>
          simp [saveAndUnloadCurrentMatch, hcur]
      · intro hne
        exfalso
        rcases hne with h | h | h <;> simp at h
    · rw [if_neg hh]
      exact ⟨hidle, hbusy⟩
  | addVarReview => exact ⟨hidle, hbusy⟩
  | warpToTime => exact ⟨hidle, hbusy⟩
  | updateEvent => exact ⟨hidle, hbusy⟩
  | dataUpdate => exact ⟨hidle, hbusy⟩

/-- C6: in every coordinator state reachable through any sequence of
lifecycle notifications and operator commands, the current-match reference
is set whenever the controller is `Recording`, `ReviewingCurrentMatch` or
`ReviewingHistoricalMatch`, and is `none` whenever it is `Idle`; every
handler preserves this invariant. -/
theorem c6_current_match_invariant (storedMatches : List String) (st : CtrlState)
    (h : CtrlReachable storedMatches st) : CurrentMatchInv st := by
  induction h with
  | init => exact ⟨fun _ => rfl, fun hne => by simp [ctrlInit] at hne⟩
  | step hr a ih => exact ctrlStep_inv _ a ih

/-- Witness for C6: the invariant holds at the state reached by starting a
match (`Q1`) and then committing it. -/
theorem c6_current_match_invariant_witness :
    CurrentMatchInv (ctrlStep (ctrlStep (ctrlInit []) (.matchStart "Q1" false)) .matchCommit) :=
  c6_current_match_invariant [] _
    (CtrlReachable.step (CtrlReachable.step CtrlReachable.init (.matchStart "Q1" false))
      .matchCommit)

/-! ### Foul reconciliation (`controller.py`, `_check_for_foul_changes`)

`db/model.py` is not among the provided sources; `Alliance`,
`MatchEventType` and `MatchEvent` below are modelled from the spec (§3
data model).  Event ids (uuid4 hex strings in the source) are modelled as
naturals drawn from a counter; event times (`float`) as `ℚ`. -/

/-- Modelled from the spec: one of the two sides of a match (`db/model.py`
is missing from the sources). -/
inductive Alliance where
  | RED
  | BLUE
  deriving DecidableEq, Repr

/-- Modelled from the spec: the `MatchEvent.event_type` enum (`db/model.py`
is missing from the sources). -/
inductive MatchEventType where
  | AUTO_SCORING
  | ENDGAME_SCORING
  | VAR_REVIEW
  | MAJOR_FOUL
  | MINOR_FOUL
  deriving DecidableEq, Repr

/-- Modelled from the spec: a `MatchEvent` annotation on a match's timeline
(`db/model.py` is missing from the sources): a stable opaque event id, an
event type, a time offset in seconds from recording start, and optional
alliance, team index within the alliance, and arena-assigned foul id. -/
structure MatchEvent where
  event_id : ℕ
  event_type : MatchEventType
  time : ℚ
  alliance : Option Alliance
  team_idx : Option ℕ
  arena_foul_id : Option ℤ
  deriving DecidableEq, Repr

/-- The `Foul` record as `cheesy_arena/model.py` actually declares it
(lines 140–146): `IsMajor`, `TeamId`, `RuleId` — and no `FoulId`. -/
structure Foul where
  is_major : Bool
  team_id : ℤ
  rule_id : ℤ
  deriving DecidableEq, Repr

/-- The attribute names present on a validated `Foul` model object
(pydantic ignores unknown wire fields, so even a `FoulId` sent by the arena
is dropped at validation). -/
def foulModelFields : List String := ["is_major", "team_id", "rule_id"]

/-- The foul shape `_check_for_foul_changes` dereferences: the controller
reads `foul.foul_id` and its comment ("Compatibility check for CA versions
that don't have FoulId") expects an optional arena-assigned foul id, as the
spec's data model also requires.  The source `Foul` model (above) lacks the
field. -/
structure FoulWithId where
  foul_id : Option ℤ
  is_major : Bool
  team_id : ℤ
  rule_id : ℤ
  deriving DecidableEq, Repr

/-- `find_team_idx` (nested in `_check_for_foul_changes`, run with a current
match loaded): team number 0 means an empty station (`none`); otherwise the
first index of the team number in the alliance's stations, or `none` when
absent (`list.index` raising `ValueError`). -/
def findTeamIdx (teams : Alliance → List ℤ) (alliance : Alliance) (team_id : ℤ) : Option ℕ :=
  if team_id = 0 then none
  else List.indexOf? team_id (teams alliance)

/-- The event type chosen for a foul: MAJOR_FOUL when `is_major`, else
MINOR_FOUL. -/
def expectedEventType (is_major : Bool) : MatchEventType :=
  if is_major then .MAJOR_FOUL else .MINOR_FOUL

/-- The `MatchEvent` appended for a newly seen foul. -/
def mkFoulEvent (eid : ℕ) (now : ℚ) (teams : Alliance → List ℤ) (alliance : Alliance)
    (f : FoulWithId) : MatchEvent :=
  { event_id := eid,
    event_type := expectedEventType f.is_major,
    time := now,
    alliance := some alliance,
    team_idx := findTeamIdx teams alliance f.team_id,
    arena_foul_id := f.foul_id }

/-- The `current_fouls` snapshot dict: it maps an arena-foul-id to the event
object carrying it; a dict comprehension lets later entries win, so the
binding is the index of the LAST event with that foul id in the entry-time
event list. -/
def lastIdxWithFoulId (events : List MatchEvent) (fid : ℤ) : Option ℕ :=
  match events with
  | [] => none
  | e :: es =>
    match lastIdxWithFoulId es fid with
    | some i => some (i + 1)
    | none => if e.arena_foul_id = some fid then some 0 else none

/-- Accumulator of the foul-processing loops: the mutable event list of the
current match, the event-id counter, and the `made_change` flag. -/
structure ReconAcc where
  events : List MatchEvent
  nextEventId : ℕ
  madeChange : Bool
  deriving DecidableEq, Repr

/-- The body of `process_foul_list` for one foul, exactly as the controller
writes it, over the `FoulWithId` shape it dereferences.  A foul without an
arena-foul-id is skipped; a foul whose id is not in the entry-time snapshot
appends a new event; otherwise the snapshot's event object (addressed by its
entry-time index) has its event-type and team-index updated in place when
either changed. -/
def processFoulWithId (teams : Alliance → List ℤ) (now : ℚ) (events0 : List MatchEvent)
    (alliance : Alliance) (acc : ReconAcc) (f : FoulWithId) : ReconAcc :=
  match f.foul_id with
  | none => acc
  | some fid =>
    match lastIdxWithFoulId events0 fid with
    | none =>
      { events := acc.events ++ [mkFoulEvent acc.nextEventId now teams alliance f],
        nextEventId := acc.nextEventId + 1,
        madeChange := true }
    | some i =>
      match acc.events[i]? with
      | none => acc
      | some ev =>
        let ty := expectedEventType f.is_major
        let ti := findTeamIdx teams alliance f.team_id
        if ev.event_type = ty ∧ ev.team_idx = ti then acc
        else
          { acc with
            events := acc.events.set i { ev with event_type := ty, team_idx := ti },
            madeChange := true }

/-- `_check_for_foul_changes` while `Recording` with a current match: the
snapshot is taken once from the entry-time events, then the red foul list
and the blue foul list are processed in order. -/
def checkForFoulChanges (teams : Alliance → List ℤ) (now : ℚ) (events0 : List MatchEvent)
    (nextId : ℕ) (redFouls blueFouls : List FoulWithId) : ReconAcc :=
  let acc1 := redFouls.foldl (processFoulWithId teams now events0 .RED)
    { events := events0, nextEventId := nextId, madeChange := false }
  blueFouls.foldl (processFoulWithId teams now events0 .BLUE) acc1

/-! Spec-side characterization of C1, written from the claim's words. -/

/-- The fouls of both alliances in processing order, tagged with their
alliance. -/
def taggedFouls (redFouls blueFouls : List FoulWithId) : List (FoulWithId × Alliance) :=
  redFouls.map (fun f => (f, .RED)) ++ blueFouls.map (fun f => (f, .BLUE))

/-- Written from the claim: the in-place update of one existing event — if
some foul in the update carries this event's arena-foul-id, the event's type
becomes MAJOR/MINOR by `is-major` and its team index is recomputed; other
events are untouched. -/
def applyFoulsToEvent (teams : Alliance → List ℤ) (fouls : List (FoulWithId × Alliance))
    (e : MatchEvent) : MatchEvent :=
  match e.arena_foul_id with
  | none => e
  | some fid =>
    match fouls.find? (fun p => p.1.foul_id == some fid) with
    | none => e
    | some p =>
      { e with event_type := expectedEventType p.1.is_major,
               team_idx := findTeamIdx teams p.2 p.1.team_id }

/-- Written from the claim: the events appended for fouls whose
arena-foul-id is not yet represented among the entry-time events, in
processing order, with sequentially allocated event ids; fouls without an
arena-foul-id are skipped. -/
def specNewEvents (teams : Alliance → List ℤ) (now : ℚ) (events0 : List MatchEvent)
    (nid : ℕ) : List (FoulWithId × Alliance) → List MatchEvent
  | [] => []
  | p :: rest =>
    match p.1.foul_id with
    | none => specNewEvents teams now events0 nid rest
    | some fid =>
      if fid ∈ events0.filterMap MatchEvent.arena_foul_id then
        specNewEvents teams now events0 nid rest
      else
        mkFoulEvent nid now teams p.2 p.1 :: specNewEvents teams now events0 (nid + 1) rest

/-- Number of events `specNewEvents` appends. -/
def newFoulCount (events0 : List MatchEvent) : List (FoulWithId × Alliance) → ℕ
  | [] => 0
  | p :: rest =>
    match p.1.foul_id with
    | none => newFoulCount events0 rest
    | some fid =>
      if fid ∈ events0.filterMap MatchEvent.arena_foul_id then newFoulCount events0 rest
      else newFoulCount events0 rest + 1

/-- Written from the claim: after reconciliation the match's events are the
entry-time events with represented fouls' events updated in place, followed
by exactly one new MAJOR/MINOR event per unrepresented foul — nothing else. -/
def foulReconSpec (teams : Alliance → List ℤ) (now : ℚ) (events0 : List MatchEvent)
    (nid : ℕ) (redFouls blueFouls : List FoulWithId) : List MatchEvent :=
  events0.map (applyFoulsToEvent teams (taggedFouls redFouls blueFouls))
    ++ specNewEvents teams now events0 nid (taggedFouls redFouls blueFouls)

theorem lastIdxWithFoulId_eq_none_iff (fid : ℤ) :
    ∀ events : List MatchEvent,
      lastIdxWithFoulId events fid = none
        ↔ fid ∉ events.filterMap MatchEvent.arena_foul_id := by
  intro events
  induction events with
  | nil => simp [lastIdxWithFoulId]
  | cons e es ih =>
    rw [lastIdxWithFoulId]
    cases h : lastIdxWithFoulId es fid with
    | some i =>
      have hmem : fid ∈ es.filterMap MatchEvent.arena_foul_id := by
        by_contra hc
        rw [← ih] at hc
        rw [h] at hc
        exact Option.some_ne_none i hc
      simp only [List.filterMap_cons]
      constructor
      · intro hfalse
        exact absurd hfalse (Option.some_ne_none (i + 1))
      · intro hnot
        exfalso
        apply hnot
        cases hfa : e.arena_foul_id <;> simp [hfa, hmem]
    | none =>
      by_cases he : e.arena_foul_id = some fid
      · rw [if_pos he]
        simp only [List.filterMap_cons, he]
        constructor
        · intro hfalse
          exact absurd hfalse (Option.some_ne_none 0)
        · intro hnot
          exact absurd (List.mem_cons_self fid _) hnot
      · rw [if_neg he]
        simp only [List.filterMap_cons]
        constructor
        · intro _
          cases hfa : e.arena_foul_id with
          | none => exact ih.mp h
          | some a =>
            intro hmem
            rcases List.mem_cons.mp hmem with rfl | hmem'
            · exact he hfa
            · exact ih.mp h hmem'
        · intro _
          trivial

theorem lastIdxWithFoulId_isSome (fid : ℤ) (events : List MatchEvent)
    (h : fid ∈ events.filterMap MatchEvent.arena_foul_id) :
    ∃ i, lastIdxWithFoulId events fid = some i := by
  cases hl : lastIdxWithFoulId events fid with
  | none => exact absurd h ((lastIdxWithFoulId_eq_none_iff fid events).mp hl)
  | some i => exact ⟨i, rfl⟩

theorem lastIdxWithFoulId_spec (fid : ℤ) :
    ∀ (events : List MatchEvent) (i : ℕ),
      (events.filterMap MatchEvent.arena_foul_id).Nodup →
      lastIdxWithFoulId events fid = some i →
      ∃ hi : i < events.length,
        events[i].arena_foul_id = some fid ∧
        ∀ j (hj : j < events.length), events[j].arena_foul_id = some fid → j = i := by
  intro events
  induction events with
  | nil =>
    intro i _ hl
    exact absurd hl (by simp [lastIdxWithFoulId])
  | cons e es ih =>
    intro i hnd hl
    have hndes : (es.filterMap MatchEvent.arena_foul_id).Nodup := by
      rw [List.filterMap_cons] at hnd
      cases hfa : e.arena_foul_id with
      | none => rwa [hfa] at hnd
      | some a =>
        rw [hfa] at hnd
        exact hnd.of_cons
    rw [lastIdxWithFoulId] at hl
    cases h : lastIdxWithFoulId es fid with
    | some i' =>
      rw [h] at hl
      injection hl with hl'
      subst hl'
      obtain ⟨hi', hfid', huniq'⟩ := ih i' hndes h
      have hmemfid : fid ∈ es.filterMap MatchEvent.arena_foul_id :=
        List.mem_filterMap.mpr ⟨es[i'], List.getElem_mem hi', hfid'⟩
      refine ⟨by simpa using Nat.succ_lt_succ hi', by simpa using hfid', ?_⟩
      intro j hj hjfid
      cases j with
      | zero =>
        exfalso
        simp only [List.getElem_cons_zero] at hjfid
        rw [List.filterMap_cons, hjfid] at hnd
        exact (List.nodup_cons.mp hnd).1 hmemfid
      | succ j' =>
        have hj' : j' < es.length := by simpa using hj
        have := huniq' j' hj' (by simpa using hjfid)
        omega
    | none =>
      rw [h] at hl
      by_cases he : e.arena_foul_id = some fid
      · rw [if_pos he] at hl
        injection hl with hl'
        subst hl'
        refine ⟨by simp, by simpa using he, ?_⟩
        intro j hj hjfid
        cases j with
        | zero => rfl
        | succ j' =>
          exfalso
          have hj' : j' < es.length := by simpa using hj
          have hmem : fid ∈ es.filterMap MatchEvent.arena_foul_id :=
            List.mem_filterMap.mpr ⟨es[j'], List.getElem_mem hj', by simpa using hjfid⟩
          exact (lastIdxWithFoulId_eq_none_iff fid es).mp h hmem
      · rw [if_neg he] at hl
        exact absurd hl (Option.noConfusion)

theorem specNewEvents_append (teams : Alliance → List ℤ) (now : ℚ)
    (events0 : List MatchEvent) :
    ∀ (l₁ l₂ : List (FoulWithId × Alliance)) (nid : ℕ),
      specNewEvents teams now events0 nid (l₁ ++ l₂)
        = specNewEvents teams now events0 nid l₁
          ++ specNewEvents teams now events0 (nid + newFoulCount events0 l₁) l₂ := by
  intro l₁
  induction l₁ with
  | nil =>
    intro l₂ nid
    simp [specNewEvents, newFoulCount]
  | cons p l₁ ih =>
    intro l₂ nid
    cases hfa : p.1.foul_id with
    | none =>
      simp only [List.cons_append, specNewEvents, newFoulCount, hfa]
      exact ih l₂ nid
    | some fid =>
      by_cases hrep : fid ∈ events0.filterMap MatchEvent.arena_foul_id
      · simp only [List.cons_append, specNewEvents, newFoulCount, hfa, if_pos hrep]
        exact ih l₂ nid
      · simp only [List.cons_append, specNewEvents, newFoulCount, hfa, if_neg hrep,
          List.append_eq]
        rw [ih l₂ (nid + 1),
          show nid + 1 + newFoulCount events0 l₁ = nid + (newFoulCount events0 l₁ + 1) by omega]

theorem newFoulCount_append (events0 : List MatchEvent) :
    ∀ l₁ l₂ : List (FoulWithId × Alliance),
      newFoulCount events0 (l₁ ++ l₂) = newFoulCount events0 l₁ + newFoulCount events0 l₂ := by
  intro l₁
  induction l₁ with
  | nil => intro l₂; simp [newFoulCount]
  | cons p l₁ ih =>
    intro l₂
    cases hfa : p.1.foul_id with
    | none => simp only [List.cons_append, newFoulCount, hfa]; exact ih l₂
    | some fid =>
      by_cases hrep : fid ∈ events0.filterMap MatchEvent.arena_foul_id
      · simp only [List.cons_append, newFoulCount, hfa, if_pos hrep]
        exact ih l₂
      · simp only [List.cons_append, newFoulCount, hfa, if_neg hrep, List.append_eq]
        rw [ih l₂]
        omega

theorem applyFoulsToEvent_append_nomatch (teams : Alliance → List ℤ)
    (done : List (FoulWithId × Alliance)) (p : FoulWithId × Alliance) (e : MatchEvent)
    (h : ∀ fid, e.arena_foul_id = some fid → p.1.foul_id ≠ some fid) :
    applyFoulsToEvent teams (done ++ [p]) e = applyFoulsToEvent teams done e := by
  cases hfa : e.arena_foul_id with
  | none => simp only [applyFoulsToEvent, hfa]
  | some fid =>
    have hp : (p.1.foul_id == some fid) = false := by
      simp only [beq_eq_false_iff_ne, ne_eq]
      exact h fid hfa
    have hsingle : List.find? (fun q : FoulWithId × Alliance => q.1.foul_id == some fid) [p]
        = none := by
      simp [List.find?, hp]
    simp only [applyFoulsToEvent, hfa, List.find?_append, hsingle, Option.or_none]

theorem applyFoulsToEvent_append_match (teams : Alliance → List ℤ)
    (done : List (FoulWithId × Alliance)) (p : FoulWithId × Alliance) (e : MatchEvent)
    (fid : ℤ) (he : e.arena_foul_id = some fid) (hp : p.1.foul_id = some fid)
    (hdone : ∀ q ∈ done, q.1.foul_id ≠ some fid) :
    applyFoulsToEvent teams done e = e ∧
    applyFoulsToEvent teams (done ++ [p]) e
      = { e with event_type := expectedEventType p.1.is_major,
                 team_idx := findTeamIdx teams p.2 p.1.team_id } := by
  have hnone : List.find? (fun q : FoulWithId × Alliance => q.1.foul_id == some fid) done
      = none := by
    rw [List.find?_eq_none]
    intro q hq
    simp only [beq_iff_eq]
    exact hdone q hq
  have hsingle : List.find? (fun q : FoulWithId × Alliance => q.1.foul_id == some fid) [p]
      = some p := by
    simp [List.find?, hp]
  constructor
  · simp only [applyFoulsToEvent, he, hnone]
  · simp only [applyFoulsToEvent, he, List.find?_append, hnone, hsingle, Option.or]

theorem applyFoulsToEvent_nil (teams : Alliance → List ℤ) (e : MatchEvent) :
    applyFoulsToEvent teams [] e = e := by
  cases hfa : e.arena_foul_id <;> simp [applyFoulsToEvent, hfa, List.find?]

/-- One iteration of the controller's foul loop, with the foul's alliance
tag. -/
def foulStep (teams : Alliance → List ℤ) (now : ℚ) (events0 : List MatchEvent)
    (acc : ReconAcc) (p : FoulWithId × Alliance) : ReconAcc :=
  processFoulWithId teams now events0 p.2 acc p.1

theorem checkForFoulChanges_eq_fold (teams : Alliance → List ℤ) (now : ℚ)
    (events0 : List MatchEvent) (nid : ℕ) (redFouls blueFouls : List FoulWithId) :
    checkForFoulChanges teams now events0 nid redFouls blueFouls
      = (taggedFouls redFouls blueFouls).foldl (foulStep teams now events0)
          { events := events0, nextEventId := nid, madeChange := false } := by
  rw [checkForFoulChanges, taggedFouls, List.foldl_append, List.foldl_map, List.foldl_map]
  rfl

theorem foulStep_spec (teams : Alliance → List ℤ) (now : ℚ) (events0 : List MatchEvent)
    (nid : ℕ) (hE : (events0.filterMap MatchEvent.arena_foul_id).Nodup)
    (done : List (FoulWithId × Alliance)) (p : FoulWithId × Alliance)
    (hdone : ∀ q ∈ done, ∀ fid, p.1.foul_id = some fid → q.1.foul_id ≠ some fid)
    (b : Bool) :
    ∃ b', foulStep teams now events0
        { events := events0.map (applyFoulsToEvent teams done)
            ++ specNewEvents teams now events0 nid done,
          nextEventId := nid + newFoulCount events0 done,
          madeChange := b } p
      = { events := events0.map (applyFoulsToEvent teams (done ++ [p]))
            ++ specNewEvents teams now events0 nid (done ++ [p]),
          nextEventId := nid + newFoulCount events0 (done ++ [p]),
          madeChange := b' } := by
  cases hfa : p.1.foul_id with
  | none =>
    refine ⟨b, ?_⟩
    have hmap : events0.map (applyFoulsToEvent teams (done ++ [p]))
        = events0.map (applyFoulsToEvent teams done) :=
      List.map_congr_left (fun e _ =>
        applyFoulsToEvent_append_nomatch teams done p e
          (fun fid _ => by rw [hfa]; exact fun hc => Option.noConfusion hc))
    have hspec : specNewEvents teams now events0 nid (done ++ [p])
        = specNewEvents teams now events0 nid done := by
      rw [specNewEvents_append]
      simp [specNewEvents, hfa]
    have hcount : newFoulCount events0 (done ++ [p]) = newFoulCount events0 done := by
      rw [newFoulCount_append]
      simp [newFoulCount, hfa]
    simp only [foulStep, processFoulWithId, hfa, hmap, hspec, hcount]
  | some fid =>
    by_cases hrep : fid ∈ events0.filterMap MatchEvent.arena_foul_id
    · obtain ⟨i, hlast⟩ := lastIdxWithFoulId_isSome fid events0 hrep
      obtain ⟨hi, hfid, huniq⟩ := lastIdxWithFoulId_spec fid events0 i hE hlast
      have hdone' : ∀ q ∈ done, q.1.foul_id ≠ some fid := fun q hq => hdone q hq fid hfa
      have hmatch := applyFoulsToEvent_append_match teams done p events0[i] fid hfid hfa hdone'
      have hgete : (events0.map (applyFoulsToEvent teams done)
          ++ specNewEvents teams now events0 nid done)[i]? = some events0[i] := by
        rw [List.getElem?_append, if_pos (by simpa using hi), List.getElem?_map,
          List.getElem?_eq_getElem hi]
        simp [hmatch.1]
      have hspec : specNewEvents teams now events0 nid (done ++ [p])
          = specNewEvents teams now events0 nid done := by
        rw [specNewEvents_append]
        simp [specNewEvents, hfa, hrep]
      have hcount : newFoulCount events0 (done ++ [p]) = newFoulCount events0 done := by
        rw [newFoulCount_append]
        simp [newFoulCount, hfa, hrep]
      by_cases hch : events0[i].event_type = expectedEventType p.1.is_major ∧
          events0[i].team_idx = findTeamIdx teams p.2 p.1.team_id
      · refine ⟨b, ?_⟩
        have hupd : ({ events0[i] with
            event_type := expectedEventType p.1.is_major
            team_idx := findTeamIdx teams p.2 p.1.team_id } : MatchEvent) = events0[i] := by
          rw [← hch.1, ← hch.2]
        have hmap : events0.map (applyFoulsToEvent teams (done ++ [p]))
            = events0.map (applyFoulsToEvent teams done) := by
          refine List.map_congr_left (fun e he => ?_)
          cases hefid : e.arena_foul_id with
          | none =>
            exact applyFoulsToEvent_append_nomatch teams done p e
              (fun fid' h' => by rw [hefid] at h'; exact Option.noConfusion h')
          | some fid' =>
            by_cases heq : fid' = fid
            · subst heq
              have he0 : e = events0[i] := by
                obtain ⟨j, hj, rfl⟩ := List.mem_iff_getElem.mp he
                have hji := huniq j hj hefid
                subst hji
                rfl
              rw [he0, hmatch.2, hmatch.1]
              exact hupd
            · exact applyFoulsToEvent_append_nomatch teams done p e
                (fun fid'' h'' => by
                  rw [hefid] at h''
                  injection h'' with h''
                  subst h''
                  rw [hfa]
                  intro hc
                  injection hc with hc
                  exact heq hc.symm)
        simp only [foulStep, processFoulWithId, hfa, hlast, hgete, if_pos hch, hmap,
          hspec, hcount]
      · refine ⟨true, ?_⟩
        have hmapset : (events0.map (applyFoulsToEvent teams done)).set i
            { events0[i] with
              event_type := expectedEventType p.1.is_major
              team_idx := findTeamIdx teams p.2 p.1.team_id }
            = events0.map (applyFoulsToEvent teams (done ++ [p])) := by
          refine List.ext_getElem (by simp) (fun j h₁ h₂ => ?_)
          rw [List.getElem_set]
          have hj : j < events0.length := by simpa using h₂
          rw [List.getElem_map]
          by_cases hij : i = j
          · subst hij
            rw [if_pos rfl, List.getElem_map]
            exact hmatch.2.symm
          · rw [if_neg hij]
            rw [List.getElem_map]
            cases hefid : events0[j].arena_foul_id with
            | none =>
              exact (applyFoulsToEvent_append_nomatch teams done p events0[j]
                (fun fid' h' => by rw [hefid] at h'; exact Option.noConfusion h')).symm
            | some fid' =>
              have hne : fid' ≠ fid := by
                intro hcc
                subst hcc
                exact hij (huniq j hj hefid).symm
              exact (applyFoulsToEvent_append_nomatch teams done p events0[j]
                (fun fid'' h'' => by
                  rw [hefid] at h''
                  injection h'' with h''
                  subst h''
                  rw [hfa]
                  intro hc
                  injection hc with hc
                  exact hne hc.symm)).symm
        have hset : ((events0.map (applyFoulsToEvent teams done)
            ++ specNewEvents teams now events0 nid done).set i
              { events0[i] with
                event_type := expectedEventType p.1.is_major
                team_idx := findTeamIdx teams p.2 p.1.team_id })
            = events0.map (applyFoulsToEvent teams (done ++ [p]))
              ++ specNewEvents teams now events0 nid done := by
          rw [List.set_append, if_pos (by simpa using hi), hmapset]
        simp only [foulStep, processFoulWithId, hfa, hlast, hgete, if_neg hch, hset,
          hspec, hcount]
    · have hlast : lastIdxWithFoulId events0 fid = none :=
        (lastIdxWithFoulId_eq_none_iff fid events0).mpr hrep
      refine ⟨true, ?_⟩
      have hmap : events0.map (applyFoulsToEvent teams (done ++ [p]))
          = events0.map (applyFoulsToEvent teams done) := by
        refine List.map_congr_left (fun e he => ?_)
        refine applyFoulsToEvent_append_nomatch teams done p e (fun fid' h' => ?_)
        rw [hfa]
        intro hc
        injection hc with hc
        subst hc
        exact hrep (List.mem_filterMap.mpr ⟨e, he, h'⟩)
      have hspec : specNewEvents teams now events0 nid (done ++ [p])
          = specNewEvents teams now events0 nid done
            ++ [mkFoulEvent (nid + newFoulCount events0 done) now teams p.2 p.1] := by
        rw [specNewEvents_append]
        simp [specNewEvents, hfa, hrep]
      have hcount : newFoulCount events0 (done ++ [p]) = newFoulCount events0 done + 1 := by
        rw [newFoulCount_append]
        simp [newFoulCount, hfa, hrep]
      simp only [foulStep, processFoulWithId, hfa, hlast, hmap, hspec, hcount,
        List.append_assoc, Nat.add_assoc]

theorem recon_loop (teams : Alliance → List ℤ) (now : ℚ) (events0 : List MatchEvent)
    (nid : ℕ) (hE : (events0.filterMap MatchEvent.arena_foul_id).Nodup)
    (T : List (FoulWithId × Alliance))
    (hF : (T.filterMap (fun p => p.1.foul_id)).Nodup) :
    ∀ (rest done : List (FoulWithId × Alliance)) (b : Bool), T = done ++ rest →
      ∃ b', rest.foldl (foulStep teams now events0)
          { events := events0.map (applyFoulsToEvent teams done)
              ++ specNewEvents teams now events0 nid done,
            nextEventId := nid + newFoulCount events0 done,
            madeChange := b }
        = { events := events0.map (applyFoulsToEvent teams T)
              ++ specNewEvents teams now events0 nid T,
            nextEventId := nid + newFoulCount events0 T,
            madeChange := b' } := by
  intro rest
  induction rest with
  | nil =>
    intro done b hT
    refine ⟨b, ?_⟩
    rw [List.foldl_nil, hT, List.append_nil]
  | cons p rest ih =>
    intro done b hT
    rw [List.foldl_cons]
    have hdone : ∀ q ∈ done, ∀ fid, p.1.foul_id = some fid → q.1.foul_id ≠ some fid := by
      intro q hq fid hpfid hqfid
      have hnd : ((done ++ p :: rest).filterMap (fun p => p.1.foul_id)).Nodup := by
        rw [← hT]
        exact hF
      rw [List.filterMap_append] at hnd
      obtain ⟨_, _, hdisj⟩ := List.nodup_append.mp hnd
      refine hdisj (List.mem_filterMap.mpr ⟨q, hq, hqfid⟩) ?_
      rw [List.filterMap_cons, hpfid]
      exact List.mem_cons_self fid _
    obtain ⟨b₁, hstep⟩ := foulStep_spec teams now events0 nid hE done p hdone b
    rw [hstep]
    exact ih (done ++ [p]) b₁ (by rw [hT, List.append_assoc]; rfl)

/-- The controller's foul-reconciliation logic, run over the foul shape it
dereferences, matches the claim exactly: assuming the data-model invariant
(at most one event per arena-foul-id) and arena-unique foul ids, the
resulting event list is the entry-time events with each represented foul's
event updated in place (type from `is_major`, team index recomputed, `none`
when the team is absent or 0), followed by exactly one new MAJOR/MINOR
event per not-yet-represented foul carrying an id — fouls without an
arena-foul-id are skipped and no other events are added. -/
theorem foul_reconciliation_matches_spec (teams : Alliance → List ℤ) (now : ℚ)
    (events0 : List MatchEvent) (nid : ℕ) (redFouls blueFouls : List FoulWithId)
    (hE : (events0.filterMap MatchEvent.arena_foul_id).Nodup)
    (hF : ((taggedFouls redFouls blueFouls).filterMap (fun p => p.1.foul_id)).Nodup) :
    (checkForFoulChanges teams now events0 nid redFouls blueFouls).events
      = foulReconSpec teams now events0 nid redFouls blueFouls := by
  rw [checkForFoulChanges_eq_fold]
  have h0 : ({ events := events0, nextEventId := nid, madeChange := false } : ReconAcc)
      = { events := events0.map (applyFoulsToEvent teams [])
            ++ specNewEvents teams now events0 nid [],
          nextEventId := nid + newFoulCount events0 [],
          madeChange := false } := by
    have : events0.map (applyFoulsToEvent teams []) = events0 := by
      rw [List.map_congr_left (fun e _ => applyFoulsToEvent_nil teams e)]
      exact List.map_id' events0
    simp [this, specNewEvents, newFoulCount]
  rw [h0]
  obtain ⟨b', hloop⟩ := recon_loop teams now events0 nid hE
    (taggedFouls redFouls blueFouls) hF (taggedFouls redFouls blueFouls) [] false
    (by simp)
  rw [hloop]
  rfl

/-- The `Foul` model declares no `foul_id` attribute. -/
theorem foul_id_not_a_field : "foul_id" ∉ foulModelFields := by decide

/-- Python attribute lookup of `foul_id` on a validated `Foul` object: the
name is resolved against the model's declared fields; since `foul_id` is
not among them (`foul_id_not_a_field`), the lookup raises `AttributeError`.
The `ok` branch is unreachable and its value a placeholder. -/
def getAttrFoulId (_f : Foul) : Except String (Option ℤ) :=
  if "foul_id" ∈ foulModelFields then .ok none
  else .error "AttributeError: Foul object has no attribute foul_id"

/-- One iteration of `process_foul_list` as it actually executes against the
`Foul` model of `cheesy_arena/model.py`: the very first statement reads
`foul.foul_id`, so the iteration either raises `AttributeError` (mutating
nothing) or — were the field present — would continue with the controller
logic. -/
def processFoulSrc (teams : Alliance → List ℤ) (now : ℚ) (events0 : List MatchEvent)
    (alliance : Alliance) (acc : ReconAcc) (f : Foul) : Except String ReconAcc := do
  let fid ← getAttrFoulId f
  pure (processFoulWithId teams now events0 alliance acc
    { foul_id := fid, is_major := f.is_major, team_id := f.team_id, rule_id := f.rule_id })

/-- `_check_for_foul_changes` against the actual `Foul` model: an exception
in either loop aborts the handler (the error propagates to the notifier
dispatch, which logs it), leaving the match's events exactly as they were. -/
def checkForFoulChangesSrc (teams : Alliance → List ℤ) (now : ℚ)
    (events0 : List MatchEvent) (nextId : ℕ) (redFouls blueFouls : List Foul) :
    Except String ReconAcc := do
  let acc1 ← redFouls.foldlM (processFoulSrc teams now events0 .RED)
    { events := events0, nextEventId := nextId, madeChange := false }
  blueFouls.foldlM (processFoulSrc teams now events0 .BLUE) acc1

/-- C1 fails on the code as shipped: scenario S4's realtime score — one red
foul `{foul_id: 7, is_major: false, team_id: 2056}` — makes
`_check_for_foul_changes` raise `AttributeError`, because the controller
reads `foul.foul_id` but the `Foul` model of `cheesy_arena/model.py`
declares no such field (pydantic also drops the wire `FoulId` at
validation).  No MINOR_FOUL event is ever appended; the handler aborts with
the events untouched. -/
theorem c1_foul_model_missing_field :
    "foul_id" ∉ foulModelFields ∧
    checkForFoulChangesSrc
        (fun a => match a with
          | Alliance.RED => [254, 2056, 148]
          | Alliance.BLUE => [1, 2, 3])
        20 [] 0 [{ is_major := false, team_id := 2056, rule_id := 1 }] []
      = .error "AttributeError: Foul object has no attribute foul_id" := by
  exact ⟨by decide, rfl⟩

/-- Concrete instantiation of `foul_reconciliation_matches_spec` (scenario
S4): a fresh red minor foul with arena-foul-id 7 by team 2056 appends
exactly one MINOR_FOUL event with alliance RED, team index 1, and that
foul id. -/
theorem foul_reconciliation_example :
    (checkForFoulChanges
        (fun a => match a with
          | Alliance.RED => [254, 2056, 148]
          | Alliance.BLUE => [1, 2, 3])
        20 [] 0 [{ foul_id := some 7, is_major := false, team_id := 2056, rule_id := 1 }]
        []).events
      = foulReconSpec
        (fun a => match a with
          | Alliance.RED => [254, 2056, 148]
          | Alliance.BLUE => [1, 2, 3])
        20 [] 0 [{ foul_id := some 7, is_major := false, team_id := 2056, rule_id := 1 }]
        [] ∧
    (checkForFoulChanges
        (fun a => match a with
          | Alliance.RED => [254, 2056, 148]
          | Alliance.BLUE => [1, 2, 3])
        20 [] 0 [{ foul_id := some 7, is_major := false, team_id := 2056, rule_id := 1 }]
        []).events
      = [{ event_id := 0, event_type := .MINOR_FOUL, time := 20,
           alliance := some .RED, team_idx := some 1, arena_foul_id := some 7 }] := by
  constructor
  · exact foul_reconciliation_matches_spec _ 20 [] 0 _ _ (by decide) (by decide)
  · decide

end FRCVideoReferee
